import Mathlib

/-!
Verification development for the multi-stage plan-generation engine
(`src/engine.js`, `src/utils.js`, `src/llm.js`).

Strings are modelled as `List Char` (JS strings; all engine content is
character data).  The LLM client is the external collaborator: it is
modelled as an oracle mapping each call site to either a failure or a
response string; `llm.js` guarantees that a successful call never
returns whitespace-only text, which is captured by `Oracle.WF`.
`JSON.parse` / `JSON.stringify` (JS platform built-ins) are modelled by
an executable JSON parser and pretty-printer below.
-/

namespace RooPlan

/-- Characters that are awkward to write literally are named. -/
def cQuote : Char := Char.ofNat 34

def cBackslash : Char := Char.ofNat 92

def cLBrace : Char := Char.ofNat 123

def cRBrace : Char := Char.ofNat 125

def cLBrack : Char := Char.ofNat 91

def cRBrack : Char := Char.ofNat 93

def cBacktick : Char := Char.ofNat 96

def cApos : Char := Char.ofNat 39

/-- JS whitespace (the set matched by `\s`, `trim`, including NBSP, BOM and
the Unicode line separators). -/
def jsWsChar (c : Char) : Bool :=
  c = ' ' || c = '\t' || c = '\n' || c = '\r' ||
  c = Char.ofNat 11 || c = Char.ofNat 12 || c = Char.ofNat 160 ||
  c = Char.ofNat 0xfeff || c = Char.ofNat 0x2028 || c = Char.ofNat 0x2029

/-- JS line terminators (what `$` with the `m` flag matches before, and what
`^` with `m` matches after). -/
def jsLineTerm (c : Char) : Bool :=
  c = '\n' || c = '\r' || c = Char.ofNat 0x2028 || c = Char.ofNat 0x2029

/-- `String.prototype.trim`. -/
def jsTrim (s : List Char) : List Char :=
  ((s.dropWhile jsWsChar).reverse.dropWhile jsWsChar).reverse

/-- `String.prototype.toUpperCase` (ASCII-faithful). -/
def jsToUpper (s : List Char) : List Char :=
  s.map Char.toUpper

/-- `String.prototype.toLowerCase` (ASCII-faithful). -/
def jsToLower (s : List Char) : List Char :=
  s.map Char.toLower

/-- `String.prototype.includes`. -/
def jsIncludes (s pat : List Char) : Bool :=
  match s with
  | [] => pat.isEmpty
  | _ :: tl => pat.isPrefixOf s || jsIncludes tl pat

/-- Index of the first occurrence of `pat` in `s` (JS `indexOf`, `none` = -1). -/
def firstIndexOf (s pat : List Char) : Option Nat :=
  match s with
  | [] => if pat.isEmpty then some 0 else none
  | _ :: tl =>
    if pat.isPrefixOf s then some 0
    else (firstIndexOf tl pat).map (· + 1)

/-- Index of the last occurrence of `pat` in `s` (JS `lastIndexOf`). -/
def lastIndexOf (s pat : List Char) : Option Nat :=
  match s with
  | [] => if pat.isEmpty then some 0 else none
  | _ :: tl =>
    match lastIndexOf tl pat with
    | some i => some (i + 1)
    | none => if pat.isPrefixOf s then some 0 else none

/-- `String.prototype.substring`: clamps both indices to the string length and
swaps them when `a > b`. -/
def jsSubstring (s : List Char) (a b : Nat) : List Char :=
  let n := s.length
  let x := min (min a n) (min b n)
  let y := max (min a n) (min b n)
  (s.drop x).take (y - x)

/-- Worker for `jsSplit` (fuel bounds the recursion; one unit per consumed
character suffices). -/
def jsSplitAux (sep : List Char) : Nat → List Char → List Char → List (List Char)
  | _, [], acc => [acc.reverse]
  | 0, s, acc => [acc.reverse ++ s]
  | fuel + 1, c :: tl, acc =>
    if sep.isPrefixOf (c :: tl) then
      acc.reverse :: jsSplitAux sep fuel ((c :: tl).drop sep.length) []
    else
      jsSplitAux sep fuel tl (c :: acc)

/-- `String.prototype.split` with a non-empty string separator. -/
def jsSplit (s sep : List Char) : List (List Char) :=
  jsSplitAux sep (s.length + 1) s []

/-- Replacement-pattern expansion performed by `String.prototype.replace`
on its replacement string: `$$`, `$&`, `` $` `` and the `$`-apostrophe form
are substituted; any other `$`-sequence is kept literally (the search pattern
is a plain string, so there are no numbered groups). -/
def dollarExpand (matched before after : List Char) : List Char → List Char
  | [] => []
  | c :: tl =>
    if c = '$' then
      match tl with
      | [] => [c]
      | d :: tl2 =>
        if d = '$' then '$' :: dollarExpand matched before after tl2
        else if d = '&' then matched ++ dollarExpand matched before after tl2
        else if d = cBacktick then before ++ dollarExpand matched before after tl2
        else if d = cApos then after ++ dollarExpand matched before after tl2
        else c :: d :: dollarExpand matched before after tl2
    else c :: dollarExpand matched before after tl

/-- `String.prototype.replace` with a string search pattern: replaces the
first occurrence, expanding `$`-patterns in the replacement. -/
def jsReplaceFirst (s pat repl : List Char) : List Char :=
  match firstIndexOf s pat with
  | none => s
  | some i =>
    let before := s.take i
    let after := s.drop (i + pat.length)
    before ++ dollarExpand pat before after repl ++ after

/-- Interleave a separator between list elements. -/
def joinSep (sep : List Char) : List (List Char) → List Char
  | [] => []
  | [p] => p
  | p :: q :: tl => p ++ sep ++ joinSep sep (q :: tl)

/-! ## JSON (`JSON.parse` / `JSON.stringify`, JS platform built-ins) -/

/-- A parsed JSON value.  Numbers keep their source literal (no numeric
question in the engine depends on the value beyond zero-ness). -/
inductive JsVal where
  | jnull : JsVal
  | jbool : Bool → JsVal
  | jnum : List Char → JsVal
  | jstr : List Char → JsVal
  | jarr : List JsVal → JsVal
  | jobj : List (List Char × JsVal) → JsVal

/-- Whether a JSON numeric literal denotes zero. -/
def jsNumLitIsZero (lit : List Char) : Bool :=
  let mant := (lit.dropWhile (· = '-')).takeWhile (fun c => c ≠ 'e' && c ≠ 'E')
  mant.all (fun c => c = '0' || c = '.')

/-- JS truthiness of a JSON value. -/
def jsTruthy : JsVal → Bool
  | .jnull => false
  | .jbool b => b
  | .jnum lit => !jsNumLitIsZero lit
  | .jstr s => !s.isEmpty
  | .jarr _ => true
  | .jobj _ => true

/-- Property lookup on a JS object built by `JSON.parse`: a duplicated key
holds the value of its last occurrence. -/
def lookupLast (kvs : List (List Char × JsVal)) (k : List Char) : Option JsVal :=
  match kvs with
  | [] => none
  | (k0, v0) :: tl =>
    match lookupLast tl k with
    | some v => some v
    | none => if k0 = k then some v0 else none

/-- Property access `v[k]`: `undefined` (`none`) on primitives and on objects
lacking the key.  (Accessing a property of `null` throws; callers that can
receive `null` model the throw explicitly.) -/
def jsGetField (v : JsVal) (k : List Char) : Option JsVal :=
  match v with
  | .jobj kvs => lookupLast kvs k
  | _ => none

/-- JSON whitespace accepted between tokens by `JSON.parse`. -/
def jsonSkipWs (cs : List Char) : List Char :=
  cs.dropWhile (fun c => c = ' ' || c = '\t' || c = '\n' || c = '\r')

/-- Hex digit value. -/
def hexVal (c : Char) : Option Nat :=
  if '0' ≤ c && c ≤ '9' then some (c.toNat - 48)
  else if 'a' ≤ c && c ≤ 'f' then some (c.toNat - 87)
  else if 'A' ≤ c && c ≤ 'F' then some (c.toNat - 70)
  else none

/-- Body of a JSON string, after the opening quote.  Returns the decoded
content and the rest after the closing quote.  (`\uXXXX` escapes in the
surrogate range are rejected; the engine never depends on them.) -/
def jsonParseStringBody : Nat → List Char → Option (List Char × List Char)
  | 0, _ => none
  | fuel + 1, cs =>
    match cs with
    | [] => none
    | c :: tl =>
      if c = cQuote then some ([], tl)
      else if c = cBackslash then
        match tl with
        | [] => none
        | e :: tl2 =>
          if e = cQuote || e = cBackslash || e = '/' then
            (jsonParseStringBody fuel tl2).map (fun r => (e :: r.1, r.2))
          else if e = 'b' then
            (jsonParseStringBody fuel tl2).map (fun r => (Char.ofNat 8 :: r.1, r.2))
          else if e = 'f' then
            (jsonParseStringBody fuel tl2).map (fun r => (Char.ofNat 12 :: r.1, r.2))
          else if e = 'n' then
            (jsonParseStringBody fuel tl2).map (fun r => ('\n' :: r.1, r.2))
          else if e = 'r' then
            (jsonParseStringBody fuel tl2).map (fun r => ('\r' :: r.1, r.2))
          else if e = 't' then
            (jsonParseStringBody fuel tl2).map (fun r => ('\t' :: r.1, r.2))
          else if e = 'u' then
            match tl2 with
            | h1 :: h2 :: h3 :: h4 :: tl3 =>
              match hexVal h1, hexVal h2, hexVal h3, hexVal h4 with
              | some a, some b, some c3, some d =>
                let code := ((a * 16 + b) * 16 + c3) * 16 + d
                if 0xd800 ≤ code && code < 0xe000 then none
                else (jsonParseStringBody fuel tl3).map (fun r => (Char.ofNat code :: r.1, r.2))
              | _, _, _, _ => none
            | _ => none
          else none
      else if c.toNat < 0x20 then none
      else (jsonParseStringBody fuel tl).map (fun r => (c :: r.1, r.2))

/-- A JSON numeric literal: `-? (0 | [1-9][0-9]*) (. [0-9]+)? ([eE][+-]?[0-9]+)?`.
Returns the literal and the rest. -/
def jsonParseNumberLit (cs : List Char) : Option (List Char × List Char) :=
  let (sgn, cs1) :=
    match cs with
    | c :: tl => if c = '-' then ([c], tl) else ([], cs)
    | [] => ([], cs)
  match cs1 with
  | [] => none
  | c :: tl =>
    if !c.isDigit then none
    else
      let (intPart, cs2) :=
        if c = '0' then ([c], tl)
        else (c :: tl.takeWhile Char.isDigit, tl.dropWhile Char.isDigit)
      let (fracPart, cs3) :=
        match cs2 with
        | d :: tl2 =>
          if d = '.' then
            let ds := tl2.takeWhile Char.isDigit
            if ds.isEmpty then ([], cs2) else (d :: ds, tl2.dropWhile Char.isDigit)
          else ([], cs2)
        | [] => ([], cs2)
      let fracOk :=
        match cs3 with
        | d :: _ => d != '.'
        | [] => true
      let (expPart, cs4, expOk) :=
        match cs3 with
        | e :: tl3 =>
          if e = 'e' || e = 'E' then
            let (esgn, tl4) :=
              match tl3 with
              | f :: tl5 => if f = '+' || f = '-' then ([f], tl5) else ([], tl3)
              | [] => ([], tl3)
            let ds := tl4.takeWhile Char.isDigit
            if ds.isEmpty then ([], cs3, false)
            else (e :: esgn ++ ds, tl4.dropWhile Char.isDigit, true)
          else ([], cs3, true)
        | [] => ([], cs3, true)
      if fracOk && expOk then some (sgn ++ intPart ++ fracPart ++ expPart, cs4)
      else none

mutual

/-- `JSON.parse`, value production (fuel-bounded recursive descent). -/
def jsonParseVal : Nat → List Char → Option (JsVal × List Char)
  | 0, _ => none
  | fuel + 1, cs =>
    let cs := jsonSkipWs cs
    match cs with
    | [] => none
    | c :: tl =>
      if c = cQuote then
        (jsonParseStringBody (fuel + 1) tl).map (fun r => (.jstr r.1, r.2))
      else if c = cLBrack then
        let tl2 := jsonSkipWs tl
        match tl2 with
        | d :: tl3 =>
          if d = cRBrack then some (.jarr [], tl3)
          else (jsonParseArrItems fuel tl2).map (fun r => (.jarr r.1, r.2))
        | [] => none
      else if c = cLBrace then
        let tl2 := jsonSkipWs tl
        match tl2 with
        | d :: tl3 =>
          if d = cRBrace then some (.jobj [], tl3)
          else (jsonParseObjItems fuel tl2).map (fun r => (.jobj r.1, r.2))
        | [] => none
      else if ("true").data.isPrefixOf cs then some (.jbool true, cs.drop 4)
      else if ("false").data.isPrefixOf cs then some (.jbool false, cs.drop 5)
      else if ("null").data.isPrefixOf cs then some (.jnull, cs.drop 4)
      else
        (jsonParseNumberLit cs).map (fun r => (.jnum r.1, r.2))

/-- `JSON.parse`, non-empty array items. -/
def jsonParseArrItems : Nat → List Char → Option (List JsVal × List Char)
  | 0, _ => none
  | fuel + 1, cs =>
    match jsonParseVal fuel cs with
    | none => none
    | some (v, rest) =>
      match jsonSkipWs rest with
      | [] => none
      | c :: tl =>
        if c = ',' then (jsonParseArrItems fuel tl).map (fun r => (v :: r.1, r.2))
        else if c = cRBrack then some ([v], tl)
        else none

/-- `JSON.parse`, non-empty object members. -/
def jsonParseObjItems : Nat → List Char → Option (List (List Char × JsVal) × List Char)
  | 0, _ => none
  | fuel + 1, cs =>
    match cs with
    | c :: tl =>
      if c = cQuote then
        match jsonParseStringBody (fuel + 1) tl with
        | none => none
        | some (k, rest) =>
          match jsonSkipWs rest with
          | d :: tl2 =>
            if d = ':' then
              match jsonParseVal fuel tl2 with
              | none => none
              | some (v, rest2) =>
                match jsonSkipWs rest2 with
                | [] => none
                | e :: tl3 =>
                  if e = ',' then
                    match jsonSkipWs tl3 with
                    | f :: _ =>
                      if f = cQuote then
                        (jsonParseObjItems fuel (jsonSkipWs tl3)).map
                          (fun r => ((k, v) :: r.1, r.2))
                      else none
                    | [] => none
                  else if e = cRBrace then some ([(k, v)], tl3)
                  else none
            else none
          | [] => none
      else none
    | [] => none

end

/-- `JSON.parse`: total parse of the whole input. -/
def jsonParse (cs : List Char) : Option JsVal :=
  match jsonParseVal (2 * cs.length + 2) cs with
  | some (v, rest) => if (jsonSkipWs rest).isEmpty then some v else none
  | none => none

/-- `JSON.stringify` escaping of one string character. -/
def jsonEscapeChar (c : Char) : List Char :=
  if c = cQuote then [cBackslash, cQuote]
  else if c = cBackslash then [cBackslash, cBackslash]
  else if c = Char.ofNat 8 then [cBackslash, 'b']
  else if c = '\t' then [cBackslash, 't']
  else if c = '\n' then [cBackslash, 'n']
  else if c = Char.ofNat 12 then [cBackslash, 'f']
  else if c = '\r' then [cBackslash, 'r']
  else if c.toNat < 0x20 then
    let hx := fun (n : Nat) => if n < 10 then Char.ofNat (48 + n) else Char.ofNat (87 + n - 10)
    [cBackslash, 'u', '0', '0', hx (c.toNat / 16), hx (c.toNat % 16)]
  else [c]

/-- A JSON string literal, quoted and escaped. -/
def jsonQuote (s : List Char) : List Char :=
  cQuote :: (s.map jsonEscapeChar).flatten ++ [cQuote]

/-- `JSON.stringify(v, null, 2)` (fuel-bounded over the nesting depth;
`ind` is the indentation of the surrounding context). -/
def jsonStringifyV : Nat → JsVal → List Char → List Char
  | _, .jnull, _ => ("null").data
  | _, .jbool true, _ => ("true").data
  | _, .jbool false, _ => ("false").data
  | _, .jnum lit, _ => lit
  | _, .jstr s, _ => jsonQuote s
  | 0, .jarr _, _ => []
  | 0, .jobj _, _ => []
  | fuel + 1, .jarr items, ind =>
    match items with
    | [] => [cLBrack, cRBrack]
    | _ =>
      let inner := ind ++ (' ' :: [' '])
      let parts := items.map (fun v => inner ++ jsonStringifyV fuel v inner)
      [cLBrack, '\n'] ++ joinSep (',' :: ['\n']) parts ++ '\n' :: ind ++ [cRBrack]
  | fuel + 1, .jobj kvs, ind =>
    match kvs with
    | [] => [cLBrace, cRBrace]
    | _ =>
      let inner := ind ++ (' ' :: [' '])
      let parts := kvs.map
        (fun kv => inner ++ jsonQuote kv.1 ++ ':' :: ' ' :: jsonStringifyV fuel kv.2 inner)
      [cLBrace, '\n'] ++ joinSep (',' :: ['\n']) parts ++ '\n' :: ind ++ [cRBrace]

/-- `JSON.stringify(v, null, 2)` at top level. -/
def jsonStringify2 (v : JsVal) : List Char :=
  jsonStringifyV 100 v []

/-! ## Specialized matchers for the regexes used by `utils.js` / `engine.js` -/

/-- A fence token. -/
def tick3 : List Char := [cBacktick, cBacktick, cBacktick]

/-- Does `cs` begin with (any amount of) whitespace followed by a line end
(`\s*$` under the `m` flag, tried at this position)? -/
def wsThenLineEnd : List Char → Bool
  | [] => true
  | c :: tl => jsLineTerm c || (jsWsChar c && wsThenLineEnd tl)

/-- `[#]{2,}\s` tried at this position (a heading of level ≥ 2 whose hash run
is followed by a whitespace character). -/
def hashTermAt (cs : List Char) : Bool :=
  let r := (cs.takeWhile (· = '#')).length
  decide (2 ≤ r) &&
    (match cs.drop r with
     | d :: _ => jsWsChar d
     | [] => false)

/-- Capture of `([\s\S]*?)(?:^[#]{2,}\s|\s*$)` with the `m` flag: grow lazily
until a line-start `##`-heading or a (whitespace-padded) line end is reached.
`atStart` records whether the current position begins a line. -/
def outlineCaptureLoop : Bool → List Char → List Char
  | _, [] => []
  | atStart, c :: tl =>
    if atStart && hashTermAt (c :: tl) then []
    else if wsThenLineEnd (c :: tl) then []
    else c :: outlineCaptureLoop (jsLineTerm c) tl

/-- The heading part of `/^[#]{2,3}\s*Core Logic Outlines\s*.../m` tried at a
line start; on success returns the regex capture. -/
def outlineMatchAt (cs : List Char) : Option (List Char) :=
  let n := (cs.takeWhile (· = '#')).length
  if n = 2 || n = 3 then
    let rest := (cs.drop n).dropWhile jsWsChar
    if ("Core Logic Outlines").data.isPrefixOf rest then
      let afterLit := rest.drop ("Core Logic Outlines").data.length
      let wsRun := afterLit.takeWhile jsWsChar
      let capAtLineStart :=
        match wsRun.getLast? with
        | some c2 => jsLineTerm c2
        | none => false
      some (outlineCaptureLoop capAtLineStart (afterLit.drop wsRun.length))
    else none
  else none

/-- Leftmost match of the outline-section regex
`/^[#]{2,3}\s*Core Logic Outlines\s*([\s\S]*?)(?:^[#]{2,}\s|\s*$)/m`
(`utils.js`, `parseOutlinesFromMd`); returns the capture. -/
def outlineSectionFind : Bool → List Char → Option (List Char)
  | _, [] => none
  | atStart, c :: tl =>
    match (if atStart then outlineMatchAt (c :: tl) else none) with
    | some cap => some cap
    | none => outlineSectionFind (jsLineTerm c) tl

/-- `/^\s*-\s*`...`:/` applied to one line: list marker, backtick-quoted
file path, colon.  Returns the captured path. -/
def outlineFileKeyAt (line : List Char) : Option (List Char) :=
  let l1 := line.dropWhile jsWsChar
  match l1 with
  | c :: tl =>
    if c = '-' then
      let l2 := tl.dropWhile jsWsChar
      match l2 with
      | d :: tl2 =>
        if d = cBacktick then
          let inner := tl2.takeWhile (fun e => !(e = cBacktick))
          let rest := tl2.drop inner.length
          match rest with
          | e :: f :: _ =>
            if (inner.isEmpty = false) && e = cBacktick && f = ':' then some inner else none
          | _ => none
        else none
      | [] => none
    else none
  | [] => none

/-- JS object property write `m[k] = v`: overwrite in place if the key
exists, else append. -/
def upsert (m : List (List Char × List Char)) (k v : List Char) :
    List (List Char × List Char) :=
  if m.any (fun kv => kv.1 = k) then
    m.map (fun kv => if kv.1 = k then (k, v) else kv)
  else m ++ [(k, v)]

/-- The accumulation loop of `parseOutlinesFromMd`: walks the section lines,
starting a new entry at each `- `path`:` marker and accumulating following
lines; an entry is saved only when its accumulated text is non-blank. -/
def outlinesLoop :
    List (List Char) → Option (List Char) → List Char →
    List (List Char × List Char) → List (List Char × List Char)
  | [], cur, acc, out =>
    (match cur with
     | some k => if (jsTrim acc).isEmpty then out else upsert out k (jsTrim acc)
     | none => out)
  | line :: rest, cur, acc, out =>
    match outlineFileKeyAt line with
    | some key =>
      let out2 :=
        match cur with
        | some k => if (jsTrim acc).isEmpty then out else upsert out k (jsTrim acc)
        | none => out
      outlinesLoop rest (some (jsTrim key)) [] out2
    | none =>
      match cur with
      | some _ =>
        if acc.length > 0 || (jsTrim line).length > 0 then
          outlinesLoop rest cur (acc ++ line ++ ['\n']) out
        else
          outlinesLoop rest cur acc out
      | none => outlinesLoop rest cur acc out

/-- `utils.js` `parseOutlinesFromMd`: extract the Core Logic Outlines section
and build the path → outline map. -/
def parseOutlinesFromMd (md : List Char) : List (List Char × List Char) :=
  match outlineSectionFind true md with
  | none => []
  | some cap =>
    if cap.isEmpty then []
    else outlinesLoop (jsSplit cap ['\n']) none [] []

/-- Does `cs` begin with whitespace followed by a fence
(`\s*```` ``` ```` tried at this position)? -/
def wsThenFence (cs : List Char) : Bool :=
  tick3.isPrefixOf (cs.dropWhile jsWsChar)

/-- Capture of `\s*([\s\S]*?)\s*``` `: grow lazily until a whitespace-padded
closing fence; `none` when no closing fence follows. -/
def fenceCaptureLoop : List Char → Option (List Char)
  | [] => none
  | c :: tl =>
    if wsThenFence (c :: tl) then some []
    else (fenceCaptureLoop tl).map (c :: ·)

/-- After the heading of the primary structure regex: find the next fence,
skip an optional (case-insensitive) `json` tag and leading whitespace, and
capture up to the closing fence; on failure try later fences. -/
def primaryFenceSeek : List Char → Option (List Char)
  | [] => none
  | c :: tl =>
    if tick3.isPrefixOf (c :: tl) then
      let afterTick := (c :: tl).drop 3
      let afterTag :=
        if ("json").data.isPrefixOf (jsToLower (afterTick.take 4)) then afterTick.drop 4
        else afterTick
      match fenceCaptureLoop (afterTag.dropWhile jsWsChar) with
      | some cap => some cap
      | none => primaryFenceSeek tl
    else primaryFenceSeek tl

/-- The primary structure regex of `parseStructureFromJsonMd`
`/[#]{2,3}\s*Proposed (?:File )?Structure(?:\s*\(JSON\))?[\s\S]*?```(?:json)?\s*([\s\S]*?)\s*```/im`
tried at this position; returns the capture. -/
def primaryMatchAt (cs : List Char) : Option (List Char) :=
  let r := (cs.takeWhile (· = '#')).length
  let k := if r ≥ 3 then 3 else r
  if k = 2 || k = 3 then
    let rest := (cs.drop k).dropWhile jsWsChar
    if ("proposed ").data.isPrefixOf (jsToLower (rest.take 9)) then
      let rest2 := rest.drop 9
      let rest3 :=
        if ("file ").data.isPrefixOf (jsToLower (rest2.take 5)) then rest2.drop 5
        else rest2
      if ("structure").data.isPrefixOf (jsToLower (rest3.take 9)) then
        let rest4 := rest3.drop 9
        let t := rest4.dropWhile jsWsChar
        let rest5 :=
          if ("(json)").data.isPrefixOf (jsToLower (t.take 6)) then t.drop 6
          else rest4
        primaryFenceSeek rest5
      else none
    else none
  else none

/-- Leftmost match of the primary structure regex; returns the capture. -/
def primaryScan : List Char → Option (List Char)
  | [] => none
  | c :: tl =>
    match primaryMatchAt (c :: tl) with
    | some cap => some cap
    | none => primaryScan tl

/-- Leftmost match of the fallback regex `/```json\s*([\s\S]*?)\s*```/m`;
returns the capture. -/
def fallbackScan : List Char → Option (List Char)
  | [] => none
  | c :: tl =>
    if (tick3 ++ ("json").data).isPrefixOf (c :: tl) then
      match fenceCaptureLoop (((c :: tl).drop 7).dropWhile jsWsChar) with
      | some cap => some cap
      | none => fallbackScan tl
    else fallbackScan tl

/-- Path normalization of one structure item (`utils.js`): trim, backslashes
to forward slashes, strip a single trailing slash. -/
def normalizeStructPath (p : List Char) : List Char :=
  let q := (jsTrim p).map (fun c => if c = cBackslash then '/' else c)
  match q.getLast? with
  | some c => if c = '/' then q.dropLast else q
  | none => q

/-- `utils.js` `parseStructureFromJsonMd`: extract the JSON block (primary
heading-based regex, then fallback ```` ```json ```` regex), parse it, keep
well-formed `dir`/`file` items, normalize paths and fix `gitignore`. -/
def parseStructureFromJsonMd (md : List Char) : List (List Char × List Char) :=
  let extracted :=
    match primaryScan md with
    | some cap => some (jsTrim cap)
    | none => (fallbackScan md).map jsTrim
  match extracted with
  | none => []
  | some js =>
    match jsonParse js with
    | some (.jarr items) =>
      let l1 := items.filterMap (fun it =>
        if jsTruthy it then
          match jsGetField it ("type").data, jsGetField it ("path").data with
          | some (.jstr ty), some (.jstr pa) =>
            if (ty = ("dir").data || ty = ("file").data) && !(jsTrim pa).isEmpty then
              some (ty, normalizeStructPath pa)
            else none
          | _, _ => none
        else none)
      l1.map (fun it =>
        if jsToLower it.2 = ("gitignore").data then (it.1, (".gitignore").data) else it)
    | some _ => []
    | none => []

/-- The span (`match[0]`) of `/### Core Logic Outlines\s*([\s\S]*?)(?:##|$)/`
(`engine.js` stage 3): from the first occurrence of the literal, through the
following whitespace, lazily up to and including the next `##` (or to the end
of the document). -/
def coreLogicSpan (md : List Char) : Option (List Char) :=
  match firstIndexOf md ("### Core Logic Outlines").data with
  | none => none
  | some p =>
    let rest := md.drop (p + ("### Core Logic Outlines").data.length)
    let w := rest.takeWhile jsWsChar
    let rest2 := rest.drop w.length
    match firstIndexOf rest2 ("##").data with
    | some t => some (("### Core Logic Outlines").data ++ w ++ rest2.take (t + 2))
    | none => some (("### Core Logic Outlines").data ++ w ++ rest2)

/-- Largest backtrack position of `\s*$` (`m` flag) tried after a fence:
the greedy whitespace run is shortened until a line end is found. -/
def greedyWsLineEnd (cs : List Char) : Option Nat :=
  let k := (cs.takeWhile jsWsChar).length
  (List.range (k + 1)).reverse.find? (fun j =>
    match cs.drop j with
    | [] => true
    | c :: _ => jsLineTerm c)

/-- Leftmost match of `/```\s*$/m` (`engine.js` stage 3); returns
`match.index + match[0].length`, the insertion point after the first
line-terminating fence. -/
def fenceEndFindAux : Nat → List Char → Option Nat
  | _, [] => none
  | i, c :: tl =>
    if tick3.isPrefixOf (c :: tl) then
      match greedyWsLineEnd ((c :: tl).drop 3) with
      | some j => some (i + 3 + j)
      | none => fenceEndFindAux (i + 1) tl
    else fenceEndFindAux (i + 1) tl

/-- Entry point for the `/```\s*$/m` search. -/
def fenceEndFind (md : List Char) : Option Nat :=
  fenceEndFindAux 0 md

/-- A slug character of `/[a-z0-9-]+/` on lowered text. -/
def slugCharLower (c : Char) : Bool :=
  ('a' ≤ c && c ≤ 'z') || c.isDigit || c = '-'

/-- Scan of the lowered haystack for
`/override system prompt for mode\s+([a-z0-9-]+)/i` (`engine.js` stage 4.7);
returns the captured (already lowercase) mode slug. -/
def footgunFindAux : List Char → Option (List Char)
  | [] => none
  | c :: tl =>
    if ("override system prompt for mode").data.isPrefixOf (c :: tl) then
      let rest := (c :: tl).drop ("override system prompt for mode").data.length
      let w := rest.takeWhile jsWsChar
      let slug := (rest.drop w.length).takeWhile slugCharLower
      if (w.isEmpty = false) && (slug.isEmpty = false) then some slug
      else footgunFindAux tl
    else footgunFindAux tl

/-- Entry point for the footgun-trigger search (case-insensitive). -/
def footgunFind (hay : List Char) : Option (List Char) :=
  footgunFindAux (jsToLower hay)

/-- Tail of the step-1 switch regex after `**:`:
`\s*<switch_mode><mode_slug>[a-z0-9-]+<\/mode_slug><\/switch_mode>`. -/
def switchEndOk (cs : List Char) : Bool :=
  let cs2 := cs.dropWhile jsWsChar
  if ("<switch_mode><mode_slug>").data.isPrefixOf cs2 then
    let cs3 := cs2.drop ("<switch_mode><mode_slug>").data.length
    let slug := cs3.takeWhile (fun c => ('a' ≤ c && c ≤ 'z') || c.isDigit || c = '-')
    (slug.isEmpty = false) &&
      ("</mode_slug></switch_mode>").data.isPrefixOf (cs3.drop slug.length)
  else false

/-- `.*?\*\*:` followed by `switchEndOk` (`.` does not cross line ends). -/
def switchSeek2 : List Char → Bool
  | [] => false
  | c :: tl =>
    (("**:").data.isPrefixOf (c :: tl) && switchEndOk ((c :: tl).drop 3)) ||
    (!jsLineTerm c && switchSeek2 tl)

/-- `.*?Switch` followed by `switchSeek2`. -/
def switchSeek1 : List Char → Bool
  | [] => false
  | c :: tl =>
    (("Switch").data.isPrefixOf (c :: tl) && switchSeek2 ((c :: tl).drop 6)) ||
    (!jsLineTerm c && switchSeek1 tl)

/-- The step-1 switch regex
`/1\.\s+\*\*.*?Switch.*?\*\*:\s*<switch_mode><mode_slug>[a-z0-9-]+<\/mode_slug><\/switch_mode>/`
tried at this position. -/
def switchAt (cs : List Char) : Bool :=
  if ("1.").data.isPrefixOf cs then
    let rest := cs.drop 2
    let w := rest.takeWhile jsWsChar
    (w.isEmpty = false) && ("**").data.isPrefixOf (rest.drop w.length) &&
      switchSeek1 (rest.drop (w.length + 2))
  else false

/-- Whether the plan contains a step-1 `switch_mode` line (`engine.js`
stage 6.1 validation). -/
def hasSwitchStep : List Char → Bool
  | [] => false
  | c :: tl => switchAt (c :: tl) || hasSwitchStep tl

/-- The successive captures of `/<message>([\s\S]*?)<\/message>/g`
(`engine.js` stage 6.1 validation). -/
def messageSpans : Nat → List Char → List (List Char)
  | 0, _ => []
  | fuel + 1, cs =>
    match firstIndexOf cs ("<message>").data with
    | none => []
    | some i =>
      let rest := cs.drop (i + ("<message>").data.length)
      match firstIndexOf rest ("</message>").data with
      | none => []
      | some j =>
        rest.take j :: messageSpans fuel (rest.drop (j + ("</message>").data.length))

/-- `^...` tested with the `m` flag: some line of `s` starts with `pat`. -/
def multilineStartsWithAux (pat : List Char) : Bool → List Char → Bool
  | atStart, cs =>
    (atStart && pat.isPrefixOf cs) ||
    (match cs with
     | [] => false
     | c :: tl => multilineStartsWithAux pat (jsLineTerm c) tl)

/-- Entry point of the multiline line-start test. -/
def multilineStartsWith (s pat : List Char) : Bool :=
  multilineStartsWithAux pat true s

/-! ## The engine (`engine.js`)

Prompt construction is pure template rendering (an excluded collaborator),
so a run's behaviour is a function of the per-call-site LLM responses; the
LLM client is modelled as an oracle indexed by call site (each site is
invoked at most once per run).  The cancellation token is the shared flag
`isCancellationRequested`, modelled by a `Bool` parameter `tok`.  Every
stage result carries the list of call sites whose LLM API call was
actually issued. -/

/-- The LLM call sites of one pipeline run. -/
inductive CallSite where
  | analysis
  | analysisValidation
  | structureGen
  | structureValidation
  | outlineRefinement
  | rulesGen
  | rulesRefine
  | rooignoreGen
  | rooignoreRefine
  | workspaceRulesGen
  | workspaceRulesRefine
  | footgunGen
  | footgunRefine
  | modesGen
  | planAssembly
  | planRefinement
  | planReview
deriving DecidableEq

/-- The LLM client (`llm.js` `callLLM`): for each call site, either a thrown
error (blocked content, invalid key, exhausted retries) or the response
text. -/
structure Oracle where
  respond : CallSite → Except Unit (List Char)

/-- `llm.js` retries empty responses and throws after exhausting retries, so
a successful `callLLM` never returns whitespace-only text. -/
def Oracle.WF (o : Oracle) : Prop :=
  ∀ site s, o.respond site = Except.ok s → jsTrim s ≠ []

/-- How a run can end abnormally: a `CancellationError`, or an ordinary
`Error` (fatal stage failure / uncaught exception). -/
inductive EngineErr where
  | cancelled
  | fatal
deriving DecidableEq

/-- A stage result together with the log of issued LLM calls. -/
def Res (α : Type) : Type := Except EngineErr α × List CallSite

/-- One `callLLM` invocation: throws (`Except.error ()`, caught by the
enclosing stage) on cancellation-before-call or client failure; otherwise
returns the oracle's response.  Only an actually issued API call is
logged. -/
def callLLM (o : Oracle) (tok : Bool) (site : CallSite) :
    Except Unit (List Char) × List CallSite :=
  if tok then (Except.error (), [])
  else
    match o.respond site with
    | Except.ok s => (Except.ok s, [site])
    | Except.error _ => (Except.error (), [site])

/-- Stage 1 (`runAnalysisStage`): one analysis call (failure is fatal),
then the OK/replace validation call (failure keeps the original; a non-`OK`
response replaces the analysis with the raw response). -/
def runAnalysisStage (o : Oracle) (tok : Bool) : Res (List Char) :=
  if tok then (Except.error .cancelled, [])
  else
    match callLLM o tok .analysis with
    | (Except.error _, l) => (Except.error .fatal, l)
    | (Except.ok analysisResult, l1) =>
      if tok then (Except.error .cancelled, l1)
      else
        match callLLM o tok .analysisValidation with
        | (Except.error _, l2) => (Except.ok analysisResult, l1 ++ l2)
        | (Except.ok v, l2) =>
          if jsToUpper (jsTrim v) ≠ ("OK").data then (Except.ok v, l1 ++ l2)
          else (Except.ok analysisResult, l1 ++ l2)

/-- The separator between the structure document and the concise command. -/
def sepLit : List Char := ("--- CONCISE ONE-SHOT COMMAND BELOW ---").data

/-- Placeholder used when the structure half of the split is empty. -/
def placeholderMd : List Char :=
  ("# Error: Could not parse structured result after validation.").data

/-- Placeholder used when the command half of the split is empty. -/
def placeholderCmd : List Char :=
  ("Build the project as described (parsing error).").data

/-- Stage 2 (`runStructuringStage`): one structuring call (failure is
fatal), the OK/replace validation call (failure keeps the raw document), a
split on the separator literal, and placeholder substitution for empty
halves. -/
def runStructuringStage (o : Oracle) (tok : Bool) : Res (List Char × List Char) :=
  if tok then (Except.error .cancelled, [])
  else
    match callLLM o tok .structureGen with
    | (Except.error _, l) => (Except.error .fatal, l)
    | (Except.ok raw, l1) =>
      if tok then (Except.error .cancelled, l1)
      else
        let step2 :=
          match callLLM o tok .structureValidation with
          | (Except.error _, l2) => (raw, l2)
          | (Except.ok v, l2) =>
            (if jsToUpper (jsTrim v) ≠ ("OK").data then v else raw, l2)
        let parts := jsSplit step2.1 sepLit
        let md :=
          match (parts.get? 0).map jsTrim with
          | some m => if m.isEmpty then placeholderMd else m
          | none => placeholderMd
        let cc :=
          match (parts.get? 1).map jsTrim with
          | some m => if m.isEmpty then placeholderCmd else m
          | none => placeholderCmd
        (Except.ok (md, cc), l1 ++ step2.2)

/-- Stage 3 (`runOutlineRefinementStage`): one refinement call (failure
returns the document unchanged); the refined content replaces the matched
Core Logic Outlines span (wrapped in single newlines, via
`String.replace`), or is inserted after the first line-terminating fence,
or appended at the end.  (The cancellation check inside the `try` block is
subsumed by the entry check, the token being monotone.) -/
def runOutlineRefinementStage (o : Oracle) (tok : Bool)
    (structureResultMd : List Char) : Res (List Char) :=
  if tok then (Except.error .cancelled, [])
  else
    match callLLM o tok .outlineRefinement with
    | (Except.error _, l) => (Except.ok structureResultMd, l)
    | (Except.ok refined, l) =>
      match coreLogicSpan structureResultMd with
      | some span =>
        (Except.ok (jsReplaceFirst structureResultMd span
          ('\n' :: (jsTrim refined ++ ['\n']))), l)
      | none =>
        match fenceEndFind structureResultMd with
        | some idx =>
          (Except.ok (structureResultMd.take idx ++ '\n' :: '\n' :: jsTrim refined ++
            structureResultMd.drop idx), l)
        | none =>
          (Except.ok (structureResultMd ++ '\n' :: '\n' :: jsTrim refined), l)

/-- Strip of the leading conversational preamble
`/^(here is|here's) the content:?\s*/i` (stage 4 only). -/
def stripPreamble (s : List Char) : List Char :=
  let low := jsToLower s
  let p1 := ("here is the content").data
  let p2 := ("here").data ++ cApos :: ("s the content").data
  let afterPat := fun (p : List Char) =>
    let rest := s.drop p.length
    let rest2 :=
      match rest with
      | c :: tl => if c = ':' then tl else rest
      | [] => rest
    rest2.dropWhile jsWsChar
  if p1.isPrefixOf low then afterPat p1
  else if p2.isPrefixOf low then afterPat p2
  else s

/-- Stage-4 normalization of a (already trimmed) rules response: strip one
wrapping fence (from the first newline to the last fence token), then the
conversational preamble. -/
def rulesNormalize (r : List Char) : List Char :=
  let r1 :=
    if tick3.isPrefixOf r && tick3.isSuffixOf r then
      let i :=
        match firstIndexOf r ['\n'] with
        | some k => k + 1
        | none => 0
      let j := (lastIndexOf r tick3).getD 0
      jsTrim (jsSubstring r i j)
    else r
  stripPreamble r1

/-- Stage-4 validity of `.clinerules-code`: non-empty, header line, and a
`// Primary Tech Stack:` line. -/
def rulesValidB (r : List Char) : Bool :=
  !r.isEmpty && ("// .clinerules-code for ").data.isPrefixOf r &&
    multilineStartsWith r ("// Primary Tech Stack:").data

/-- Stage 4 (`runRulesGenerationStage`): generate, normalize, validate; one
refinement attempt (same normalization and predicate); `none` when the
artifact is dropped.  (The structure document feeds only the prompts.) -/
def runRulesGenerationStage (o : Oracle) (tok : Bool) : Res (Option (List Char)) :=
  if tok then (Except.error .cancelled, [])
  else
    match callLLM o tok .rulesGen with
    | (Except.error _, l) => (Except.ok none, l)
    | (Except.ok raw, l1) =>
      let r := rulesNormalize (jsTrim raw)
      if rulesValidB r then (Except.ok (some r), l1)
      else if tok then (Except.error .cancelled, l1)
      else
        match callLLM o tok .rulesRefine with
        | (Except.error _, l2) => (Except.ok none, l1 ++ l2)
        | (Except.ok raw2, l2) =>
          let r2 := rulesNormalize (jsTrim raw2)
          if rulesValidB r2 then (Except.ok (some r2), l1 ++ l2)
          else (Except.ok none, l1 ++ l2)

/-- Stage-4.5 validity of `.rooignore`: non-empty and header line (the raw
response is tested, with no normalization). -/
def rooignoreValidB (r : List Char) : Bool :=
  !r.isEmpty && ("# .rooignore for ").data.isPrefixOf r

/-- Stage 4.5 (`runRooignoreGenerationStage`): generate, validate the raw
response, one refinement attempt; `none` when dropped. -/
def runRooignoreGenerationStage (o : Oracle) (tok : Bool) : Res (Option (List Char)) :=
  if tok then (Except.error .cancelled, [])
  else
    match callLLM o tok .rooignoreGen with
    | (Except.error _, l) => (Except.ok none, l)
    | (Except.ok r, l1) =>
      if rooignoreValidB r then (Except.ok (some r), l1)
      else if tok then (Except.error .cancelled, l1)
      else
        match callLLM o tok .rooignoreRefine with
        | (Except.error _, l2) => (Except.ok none, l1 ++ l2)
        | (Except.ok r2, l2) =>
          if rooignoreValidB r2 then (Except.ok (some r2), l1 ++ l2)
          else (Except.ok none, l1 ++ l2)

/-- Stage-4.6 validity of the workspace `.clinerules`: non-empty and header
line (the raw response is tested, with no normalization). -/
def workspaceRulesValidB (r : List Char) : Bool :=
  !r.isEmpty && ("// General Workspace .clinerules for ").data.isPrefixOf r

/-- Stage 4.6 (`runWorkspaceRulesGenerationStage`): generate, validate the
raw response, one refinement attempt; `none` when dropped. -/
def runWorkspaceRulesGenerationStage (o : Oracle) (tok : Bool) : Res (Option (List Char)) :=
  if tok then (Except.error .cancelled, [])
  else
    match callLLM o tok .workspaceRulesGen with
    | (Except.error _, l) => (Except.ok none, l)
    | (Except.ok r, l1) =>
      if workspaceRulesValidB r then (Except.ok (some r), l1)
      else if tok then (Except.error .cancelled, l1)
      else
        match callLLM o tok .workspaceRulesRefine with
        | (Except.error _, l2) => (Except.ok none, l1 ++ l2)
        | (Except.ok r2, l2) =>
          if workspaceRulesValidB r2 then (Except.ok (some r2), l1 ++ l2)
          else (Except.ok none, l1 ++ l2)

/-- Stage 4.7 (`runFootgunPromptGenerationStage`): a no-op unless the
trigger phrase occurs in the analysis plus structure document; otherwise
generate, requiring a non-blank response, with one refinement attempt.
Returns (prompt content, target mode slug). -/
def runFootgunPromptGenerationStage (o : Oracle) (tok : Bool)
    (analysisResult structureResultMd : List Char) :
    Res (Option (List Char) × Option (List Char)) :=
  match footgunFind (analysisResult ++ '\n' :: structureResultMd) with
  | none => (Except.ok (none, none), [])
  | some rawMode =>
    let mode := jsToLower (jsTrim rawMode)
    if tok then (Except.error .cancelled, [])
    else
      match callLLM o tok .footgunGen with
      | (Except.error _, l) => (Except.ok (none, none), l)
      | (Except.ok f, l1) =>
        if !(jsTrim f).isEmpty then (Except.ok (some f, some mode), l1)
        else if tok then (Except.error .cancelled, l1)
        else
          match callLLM o tok .footgunRefine with
          | (Except.error _, l2) => (Except.ok (none, none), l1 ++ l2)
          | (Except.ok f2, l2) =>
            if (jsTrim f2).isEmpty then (Except.ok (none, none), l1 ++ l2)
            else (Except.ok (some f2, some mode), l1 ++ l2)

/-- Strict equality with a given string literal. -/
def isStrVal (v : JsVal) (s : List Char) : Bool :=
  match v with
  | .jstr t => t = s
  | _ => false

/-- Stage-5 fence cleanup of the trimmed modes response (a ```` ```json ````
variant and a plain variant, via `substring`). -/
def modesFenceStrip (r : List Char) : List Char :=
  if (tick3 ++ ("json").data).isPrefixOf r && tick3.isSuffixOf r then
    jsTrim (jsSubstring r 7 (r.length - 3))
  else if tick3.isPrefixOf r && tick3.isSuffixOf r then
    jsTrim (jsSubstring r 3 (r.length - 3))
  else r

/-- Stage-5 parse condition: the cleaned response parses as JSON, is truthy,
and has a non-empty `customModes` array.  Returns the modes. -/
def modesParseAttempt (r : List Char) : Option (List JsVal) :=
  match jsonParse r with
  | none => none
  | some v =>
    if jsTruthy v then
      match jsGetField v ("customModes").data with
      | some (.jarr ms) => if ms.isEmpty then none else some ms
      | _ => none
    else none

/-- `mode.slug` for one element of `customModes`: property access on `null`
throws (`Except.error`, caught by the stage and routed to the fallback);
on a non-object it is `undefined`. -/
def modeSlugOf (m : JsVal) : Except Unit (Option JsVal) :=
  match m with
  | .jnull => Except.error ()
  | .jobj kvs => Except.ok (lookupLast kvs ("slug").data)
  | _ => Except.ok none

/-- `customModes.map(mode => mode.slug)`, stopping at the first throw. -/
def modeSlugsOf : List JsVal → Except Unit (List (Option JsVal))
  | [] => Except.ok []
  | m :: tl =>
    match modeSlugOf m with
    | Except.error _ => Except.error ()
    | Except.ok s => (modeSlugsOf tl).map (s :: ·)

/-- The stage-5 fallback mode set for a small structure document (one flat
`developer` mode). -/
def fallbackModesSmall : JsVal :=
  .jobj [(("customModes").data, .jarr [
    .jobj [
      (("slug").data, .jstr ("developer").data),
      (("name").data, .jstr ("Developer").data),
      (("roleDefinition").data,
        .jstr ("Implement the project based on the analysis.").data),
      (("groups").data, .jarr [.jstr ("read").data, .jstr ("edit").data,
        .jstr ("command").data, .jstr ("attempt_completion").data]),
      (("customInstructions").data,
        .jstr ("Implement features based on the project plan and requirements. Follow any available coding standards. (Fallback due to modes generation error)").data)]])]

/-- The stage-5 fallback mode set for a larger structure document
(`project-manager` plus `code`). -/
def fallbackModesLarge : JsVal :=
  .jobj [(("customModes").data, .jarr [
    .jobj [
      (("slug").data, .jstr ("project-manager").data),
      (("name").data, .jstr ("Project Manager").data),
      (("roleDefinition").data,
        .jstr ("Manage the build based on the analysis, delegate tasks.").data),
      (("groups").data, .jarr [.jstr ("read").data, .jstr ("new_task").data,
        .jstr ("switch_mode").data]),
      (("customInstructions").data,
        .jstr (("Delegate tasks via <new_task> to the ").data ++ cApos ::
          ("code").data ++ cApos ::
          (" mode. Monitor progress. Use information from the analysis and structure documents. (Fallback due to modes generation error)").data))],
    .jobj [
      (("slug").data, .jstr ("code").data),
      (("name").data, .jstr ("General Developer").data),
      (("roleDefinition").data, .jstr ("Implement delegated tasks.").data),
      (("groups").data, .jarr [.jstr ("read").data, .jstr ("edit").data,
        .jstr ("command").data, .jstr ("attempt_completion").data]),
      (("customInstructions").data,
        .jstr ("Implement features based on delegated tasks. Follow any available coding standards. (Fallback due to modes generation error)").data)]])]

/-- The stage-5 delegate filter: keep the truthy slug values other than
`project-orchestrator`. -/
def delegateFilter (slugFields : List (Option JsVal)) : List JsVal :=
  slugFields.filterMap (fun sf =>
    match sf with
    | some sv =>
      if jsTruthy sv && !isStrVal sv ("project-orchestrator").data then some sv
      else none
    | none => none)

/-- The result of stage 5. -/
structure ModesOut where
  roomodesResult : List Char
  techSpecificSlugs : List JsVal
  parsedModesSuccessfully : Bool

/-- Stage 5 (`runModesGenerationStage`): generate (an LLM failure becomes
the unparseable-shaped text `{}` — written via its characters), clean
fences, parse; on success filter the delegate slugs (dropping falsy values
and `project-orchestrator`, appending `code` when none remain); on any
parse/shape failure (or a throw while extracting slugs) synthesize the
fallback mode set chosen by the 20-line heuristic. -/
def runModesGenerationStage (o : Oracle) (tok : Bool)
    (structureResultMd : List Char) : Res ModesOut :=
  if tok then (Except.error .cancelled, [])
  else
    let gen :=
      match callLLM o tok .modesGen with
      | (Except.ok s, l) => (s, l)
      | (Except.error _, l) => ([cLBrace, cRBrace], l)
    let r := modesFenceStrip (jsTrim gen.1)
    let success :=
      match modesParseAttempt r with
      | none => none
      | some ms =>
        match modeSlugsOf ms with
        | Except.error _ => none
        | Except.ok slugFields =>
          let slugs := delegateFilter slugFields
          let slugs2 :=
            if slugs.isEmpty then slugs ++ [JsVal.jstr ("code").data] else slugs
          some { roomodesResult := r, techSpecificSlugs := slugs2,
                 parsedModesSuccessfully := true }
    match success with
    | some out => (Except.ok out, gen.2)
    | none =>
      if (jsSplit structureResultMd ['\n']).length < 20 then
        (Except.ok { roomodesResult := jsonStringify2 fallbackModesSmall,
                     techSpecificSlugs := [JsVal.jstr ("developer").data],
                     parsedModesSuccessfully := false }, gen.2)
      else
        (Except.ok { roomodesResult := jsonStringify2 fallbackModesLarge,
                     techSpecificSlugs := [JsVal.jstr ("code").data],
                     parsedModesSuccessfully := false }, gen.2)

/-- Stage-6.1 validation: collect the structural issues of a draft plan
(title, Concise Goal, step-1 switch, a phase header, a delegation, and
JSON-parseable `<message>` payloads — the loop reports the first bad
payload; the issue strings feed only the refinement prompt and logs, so the
parse-error detail is abbreviated). -/
def planValidationIssues (p : List Char) : List (List Char) :=
  (if !jsIncludes p ("# Roo Code Execution Plan:").data then
    [("Missing Title").data] else []) ++
  (if !jsIncludes p ("**Concise Goal:**").data then
    [("Missing Concise Goal").data] else []) ++
  (if !hasSwitchStep p then
    [("Missing or invalid initial <switch_mode> step (Step 1)").data] else []) ++
  (if !jsIncludes p ("## ").data then
    [("Missing phase headers (e.g., ## Phase 1: ...)").data] else []) ++
  (if !jsIncludes p ("<new_task>").data then
    [("Missing at least one <new_task> delegation").data] else []) ++
  (if (messageSpans (p.length + 1) p).all (fun sp => (jsonParse sp).isSome) then []
   else [("Invalid JSON in <message>").data])

/-- `slug.includes(pat)` inside the stage-6 fallback: works on strings and
(element-wise, via `Array.prototype.includes`) on arrays; any other JSON
value throws a `TypeError`. -/
def jsIncludesVal (v : JsVal) (pat : List Char) : Except Unit Bool :=
  match v with
  | .jstr s => Except.ok (jsIncludes s pat)
  | .jarr xs => Except.ok (xs.any (fun x => isStrVal x pat))
  | _ => Except.error ()

/-- `slug.includes('manager') || slug.includes('orchestrator') ||
slug.includes('lead')` with JS short-circuiting. -/
def primarySlugPred (v : JsVal) : Except Unit Bool :=
  match jsIncludesVal v ("manager").data with
  | Except.error _ => Except.error ()
  | Except.ok true => Except.ok true
  | Except.ok false =>
    match jsIncludesVal v ("orchestrator").data with
    | Except.error _ => Except.error ()
    | Except.ok true => Except.ok true
    | Except.ok false => jsIncludesVal v ("lead").data

/-- The complementary predicate selecting a non-coordinating delegate. -/
def delegateSlugPred (v : JsVal) : Except Unit Bool :=
  match jsIncludesVal v ("manager").data with
  | Except.error _ => Except.error ()
  | Except.ok true => Except.ok false
  | Except.ok false =>
    match jsIncludesVal v ("orchestrator").data with
    | Except.error _ => Except.error ()
    | Except.ok true => Except.ok false
    | Except.ok false =>
      match jsIncludesVal v ("lead").data with
      | Except.error _ => Except.error ()
      | Except.ok b => Except.ok !b

/-- `Array.prototype.find` with a throwing predicate. -/
def findSlug (p : JsVal → Except Unit Bool) : List JsVal → Except Unit (Option JsVal)
  | [] => Except.ok none
  | v :: tl =>
    match p v with
    | Except.error _ => Except.error ()
    | Except.ok true => Except.ok (some v)
    | Except.ok false => findSlug p tl

/-- Template-string conversion of a slug value reaching the fallback plan
(only strings and arrays can get here; array elements are joined with
commas as `String(array)` does; a numeric literal is emitted as written,
which agrees with JS on every value the engine can produce). -/
def jsToStringVal : Nat → JsVal → List Char
  | _, .jnull => []
  | _, .jbool true => ("true").data
  | _, .jbool false => ("false").data
  | _, .jnum lit => lit
  | _, .jstr s => s
  | 0, .jarr _ => []
  | fuel + 1, .jarr xs => joinSep [','] (xs.map (jsToStringVal fuel))
  | _, .jobj _ => ("[object Object]").data

/-- The fixed-shape JSON payload embedded in the stage-6 fallback plan. -/
def fallbackMessageContent (conciseCommand : List Char) : JsVal :=
  .jobj [
    (("goal").data,
      .jstr (("Implement the core logic for: ").data ++ conciseCommand)),
    (("contextSummary").data,
      .jstr (("The detailed plan generation failed. Refer to the full project structure and analysis provided separately. Key goal: ").data ++ conciseCommand)),
    (("detailedInstructions").data,
      .jstr ("1. Review the full project analysis and structure markdown.\n2. Implement the core features required to meet the concise goal.\n3. Adhere strictly to any available .clinerules-code or general coding best practices.\n4. Use attempt_completion with a summary upon success.").data),
    (("toolNotes").data,
      .jstr ("No specific tool notes available due to fallback generation.").data),
    (("completionCriteria").data,
      .jstr ("Core functionality implemented as per the concise goal and available analysis.").data)]

/-- The stage-6 fallback plan template. -/
def fallbackPlanText (conciseCommand primarySlug delegateSlug : List Char) : List Char :=
  '\n' :: ("# Roo Code Execution Plan: Fallback Plan\n\n**Concise Goal:** ").data ++
  conciseCommand ++
  ("\n\n*(Ensure generated .roomodes and .clinerules files are saved in the project root before starting this plan. Plan generation encountered issues, using fallback.)*\n\n## Phase 1: Initialization (Fallback)\n\n1.  **Switch to Primary Mode:**\n    <switch_mode><mode_slug>").data ++
  primarySlug ++
  ("</mode_slug></switch_mode>\n    *(This mode will now delegate the main task based on the fallback plan below)*\n\n## Phase 2: Core Implementation (Fallback)\n\n2.  **Delegate General Implementation Task:**\n    <new_task>\n    <mode>").data ++
  delegateSlug ++
  ("</mode> *(Fallback delegate mode)*\n    <message>").data ++
  jsonStringify2 (fallbackMessageContent conciseCommand) ++
  ("</message>\n    </new_task>\n*(Primary mode should monitor completion)*\n").data

/-- The stage-6 fallback: pick the coordinating slug (or `developer`) and a
non-coordinating delegate (or `code`), and instantiate the fallback plan;
a `TypeError` from `includes` on a malformed slug propagates. -/
def planFallbackBuild (conciseCommand : List Char) (slugs : List JsVal) :
    Except Unit (List Char) :=
  match findSlug primarySlugPred slugs with
  | Except.error _ => Except.error ()
  | Except.ok prim0 =>
    let prim :=
      match prim0 with
      | some v => if jsTruthy v then v else JsVal.jstr ("developer").data
      | none => JsVal.jstr ("developer").data
    match findSlug delegateSlugPred slugs with
    | Except.error _ => Except.error ()
    | Except.ok del0 =>
      let del :=
        match del0 with
        | some v => if jsTruthy v then v else JsVal.jstr ("code").data
        | none => JsVal.jstr ("code").data
      Except.ok (fallbackPlanText conciseCommand
        (jsToStringVal 100 prim) (jsToStringVal 100 del))

/-- Stage 6 (`runPlanAssemblyStage`): one assembly call (failure routes to
the fallback), structural validation, one refinement call accepted by the
mere presence of the title marker, and the deterministic fallback plan when
still invalid.  Returns the plan and its validity flag. -/
def runPlanAssemblyStage (o : Oracle) (tok : Bool)
    (conciseCommand _structureResultMd : List Char) (techSpecificSlugs : List JsVal) :
    Res (List Char × Bool) :=
  if tok then (Except.error .cancelled, [])
  else
    let gen :=
      match callLLM o tok .planAssembly with
      | (Except.ok s, l) => (some s, l)
      | (Except.error _, l) => (none, l)
    let afterVal : Except EngineErr (Option (List Char) × Bool) × List CallSite :=
      match gen.1 with
      | some p =>
        if (planValidationIssues p).isEmpty then (Except.ok (some p, true), gen.2)
        else if tok then (Except.error .cancelled, gen.2)
        else
          match callLLM o tok .planRefinement with
          | (Except.ok p2, l2) =>
            if !p2.isEmpty && jsIncludes p2 ("# Roo Code Execution Plan:").data then
              (Except.ok (some p2, true), gen.2 ++ l2)
            else (Except.ok (some p2, false), gen.2 ++ l2)
          | (Except.error _, l2) => (Except.ok (some p, false), gen.2 ++ l2)
      | none => (Except.ok (none, false), gen.2)
    match afterVal.1 with
    | Except.error e => (Except.error e, afterVal.2)
    | Except.ok (some p, true) => (Except.ok (p, true), afterVal.2)
    | Except.ok (_, _) =>
      match planFallbackBuild conciseCommand techSpecificSlugs with
      | Except.error _ => (Except.error .fatal, afterVal.2)
      | Except.ok fb => (Except.ok (fb, false), afterVal.2)

/-- Stage 6.5 (`runPlanRefinementStage`): one review call; `OK` (trimmed,
case-insensitive) keeps the plan, any other response replaces it with the
trimmed response, a failure keeps the plan.  (The mode set and structure
document feed only the prompt.) -/
def runPlanRefinementStage (o : Oracle) (tok : Bool) (finalPlan : List Char) :
    Res (List Char) :=
  if tok then (Except.error .cancelled, [])
  else
    match callLLM o tok .planReview with
    | (Except.ok v, l) =>
      if jsToUpper (jsTrim v) ≠ ("OK").data then (Except.ok (jsTrim v), l)
      else (Except.ok finalPlan, l)
    | (Except.error _, l) => (Except.ok finalPlan, l)

/-- The value returned by a completed run. -/
structure EngineResult where
  artifacts : List (List Char × List Char)
  structureList : List (List Char × List Char)
  outlines : List (List Char × List Char)

/-- The engine (`runAdvancedReasoningEngine`): stages 1–3 sequentially,
stages 4.x/5 as a `Promise.all` group (each branch settles; the group
rejects with a branch error if any), artifact-map assembly, the two
extractors, stage 6 and the conditional stage 6.5, with cancellation
checks at every stage boundary.  The artifact map omits dropped artifacts
and skips empty strings. -/
def runAdvancedReasoningEngine (o : Oracle) (tok : Bool)
    (_projectIdea : List Char) : Res EngineResult :=
  match runAnalysisStage o tok with
  | (Except.error e, l) => (Except.error e, l)
  | (Except.ok analysisResult, l1) =>
  if tok then (Except.error .cancelled, l1)
  else
  match runStructuringStage o tok with
  | (Except.error e, l2) => (Except.error e, l1 ++ l2)
  | (Except.ok (md0, conciseCommand), l2) =>
  if tok then (Except.error .cancelled, l1 ++ l2)
  else
  match runOutlineRefinementStage o tok md0 with
  | (Except.error e, l3) => (Except.error e, l1 ++ l2 ++ l3)
  | (Except.ok structureResultMd, l3) =>
  if tok then (Except.error .cancelled, l1 ++ l2 ++ l3)
  else
  let pre := l1 ++ l2 ++ l3
  let g4 := runRulesGenerationStage o tok
  let g45 := runRooignoreGenerationStage o tok
  let g46 := runWorkspaceRulesGenerationStage o tok
  let g47 := runFootgunPromptGenerationStage o tok analysisResult structureResultMd
  let g5 := runModesGenerationStage o tok structureResultMd
  let lpar := pre ++ g4.2 ++ g45.2 ++ g46.2 ++ g47.2 ++ g5.2
  match g4.1, g45.1, g46.1, g47.1, g5.1 with
  | Except.error e, _, _, _, _ => (Except.error e, lpar)
  | _, Except.error e, _, _, _ => (Except.error e, lpar)
  | _, _, Except.error e, _, _ => (Except.error e, lpar)
  | _, _, _, Except.error e, _ => (Except.error e, lpar)
  | _, _, _, _, Except.error e => (Except.error e, lpar)
  | Except.ok rulesResult, Except.ok rooignoreResult, Except.ok workspaceRulesResult,
      Except.ok fg, Except.ok modesOut =>
  if tok then (Except.error .cancelled, lpar)
  else
  let a1 :=
    match rulesResult with
    | some r => [((".clinerules-code").data, r)]
    | none => []
  let a2 :=
    match rooignoreResult with
    | some r => [((".rooignore").data, r)]
    | none => []
  let a3 :=
    match workspaceRulesResult with
    | some r => [((".clinerules").data, r)]
    | none => []
  let a4 :=
    match fg.1, fg.2 with
    | some f, some m =>
      if !f.isEmpty && !m.isEmpty then [((".roo/system-prompt-").data ++ m, f)]
      else []
    | _, _ => []
  let a5 :=
    if !modesOut.roomodesResult.isEmpty then
      [((".roomodes").data, modesOut.roomodesResult)]
    else []
  let baseArtifacts := a1 ++ a2 ++ a3 ++ a4 ++ a5
  let structureList := parseStructureFromJsonMd structureResultMd
  let outlines := parseOutlinesFromMd structureResultMd
  match runPlanAssemblyStage o tok conciseCommand structureResultMd
      modesOut.techSpecificSlugs with
  | (Except.error e, l6) => (Except.error e, lpar ++ l6)
  | (Except.ok (finalPlan0, planIsValid), l6) =>
  if tok then (Except.error .cancelled, lpar ++ l6)
  else
  let refine :=
    if planIsValid && modesOut.parsedModesSuccessfully &&
        !modesOut.roomodesResult.isEmpty then
      runPlanRefinementStage o tok finalPlan0
    else (Except.ok finalPlan0, [])
  match refine with
  | (Except.error e, l7) => (Except.error e, lpar ++ l6 ++ l7)
  | (Except.ok finalPlan, l7) =>
  if tok then (Except.error .cancelled, lpar ++ l6 ++ l7)
  else
  let artifacts :=
    baseArtifacts ++
      (if !finalPlan.isEmpty then [(("roo-plan.md").data, finalPlan)] else [])
  (Except.ok { artifacts := artifacts, structureList := structureList,
               outlines := outlines }, lpar ++ l6 ++ l7)

/-! ## Claim-support definitions -/

/-- The slugs of a mode-set value, in order. -/
def modeSetSlugs (v : JsVal) : List (List Char) :=
  match jsGetField v ("customModes").data with
  | some (.jarr ms) =>
    ms.filterMap (fun m =>
      match jsGetField m ("slug").data with
      | some (.jstr s) => some s
      | _ => none)
  | _ => []

/-- The number of modes in a mode-set value. -/
def modeSetSize (v : JsVal) : Nat :=
  match jsGetField v ("customModes").data with
  | some (.jarr ms) => ms.length
  | _ => 0

/-- Stage-5 fallback trigger, as the spec describes it: the generation call
failed, or the cleaned response does not parse as a truthy JSON value with a
non-empty `customModes` array. -/
def modesFallbackTriggered (o : Oracle) : Prop :=
  match o.respond CallSite.modesGen with
  | Except.error _ => True
  | Except.ok raw => modesParseAttempt (modesFenceStrip (jsTrim raw)) = none

/-- Position after the last line-terminating fence (the spec-side reading
of "immediately after the last fenced code block"). -/
def lastFenceEndAux : Nat → List Char → Option Nat → Option Nat
  | _, [], best => best
  | i, c :: tl, best =>
    if tick3.isPrefixOf (c :: tl) then
      match greedyWsLineEnd ((c :: tl).drop 3) with
      | some j => lastFenceEndAux (i + 1) tl (some (i + 3 + j))
      | none => lastFenceEndAux (i + 1) tl best
    else lastFenceEndAux (i + 1) tl best

/-- Entry point for the last-fence search. -/
def lastFenceEnd (md : List Char) : Option Nat :=
  lastFenceEndAux 0 md none

/-- The stage-3 splice as the claim words it (for comparison with the
implementation): the matched span is replaced by exactly the trimmed
refined content; with no section, the trimmed content is inserted
immediately after the last fenced code block, or appended at the end. -/
def outlineSpliceClaimed (md refined : List Char) : List Char :=
  match coreLogicSpan md with
  | some span =>
    match firstIndexOf md span with
    | some p => md.take p ++ jsTrim refined ++ md.drop (p + span.length)
    | none => md
  | none =>
    match lastFenceEnd md with
    | some idx => md.take idx ++ jsTrim refined ++ md.drop idx
    | none => md ++ jsTrim refined

/-- C5: a structure document whose JSON block holds the two paths named by
the claim. -/
def c5Doc : List Char :=
  ("## Proposed Structure\n```json\n[\x7b\"type\": \"file\", \"path\": \"./src/index.js/\"\x7d, \x7b\"type\": \"file\", \"path\": \"gitignore\"\x7d]\n```").data

/-- C3: an oracle whose validation response is a non-`OK` text with
surrounding whitespace. -/
def c3Oracle : Oracle :=
  ⟨fun site =>
    match site with
    | .analysis => Except.ok ("Base analysis.").data
    | .analysisValidation => Except.ok ("  Revised analysis.  ").data
    | _ => Except.error ()⟩

/-- C3 witness oracle: an `OK` (with case and padding) validation verdict
and a replacing plan review. -/
def c3WitOracle : Oracle :=
  ⟨fun site =>
    match site with
    | .analysis => Except.ok ("Base analysis.").data
    | .analysisValidation => Except.ok (" oK ").data
    | .planReview => Except.ok ("  better plan ").data
    | _ => Except.error ()⟩

/-- C7 witness oracle: a structure response with no separator. -/
def c7WitOracle : Oracle :=
  ⟨fun site =>
    match site with
    | .structureGen => Except.ok (" structure only, no separator ").data
    | .structureValidation => Except.ok ("OK").data
    | _ => Except.error ()⟩

/-- C2 witness oracle: a modes response that is not JSON. -/
def c2WitOracle : Oracle :=
  ⟨fun site =>
    match site with
    | .modesGen => Except.ok ("this is not json").data
    | _ => Except.error ()⟩

/-- C9 witness oracle: a parseable mode set whose only slugs are
`project-orchestrator` and a falsy value, so the delegate list must fall
back to `code`. -/
def c9WitOracle : Oracle :=
  ⟨fun site =>
    match site with
    | .modesGen => Except.ok ("\x7b\"customModes\": [\x7b\"slug\": \"project-orchestrator\"\x7d, \x7b\"slug\": \"\"\x7d]\x7d").data
    | _ => Except.error ()⟩

/-- C6 counterexample oracle: a fence-wrapped but otherwise valid
`.rooignore` response, with a failing refinement call. -/
def c6Oracle : Oracle :=
  ⟨fun site =>
    match site with
    | .rooignoreGen => Except.ok ("```\n# .rooignore for proj\nnode_modules/\n```").data
    | _ => Except.error ()⟩

/-- C6 witness oracle: responses for the four generation sites. -/
def c6WitOracle : Oracle :=
  ⟨fun site =>
    match site with
    | .rulesGen =>
      Except.ok ("```\n// .clinerules-code for X\n// Primary Tech Stack: js\n```").data
    | .rooignoreGen => Except.ok ("# .rooignore for X\nnode_modules/").data
    | .workspaceRulesGen =>
      Except.ok ("// General Workspace .clinerules for X\nrules").data
    | .modesGen =>
      Except.ok ("```json\n\x7b\"customModes\": [\x7b\"slug\": \"dev\"\x7d]\x7d\n```").data
    | .footgunGen => Except.ok ("```\n\n```").data
    | _ => Except.error ()⟩

/-- C4: the refinement response used by the counterexample. -/
def c4Oracle : Oracle :=
  ⟨fun site =>
    match site with
    | .outlineRefinement => Except.ok ("REFINED").data
    | _ => Except.error ()⟩

/-- C4: a document with a Core Logic Outlines section. -/
def c4DocA : List Char :=
  ("intro\n### Core Logic Outlines\nold stuff\n## Next\nrest").data

/-- C4: a section-free document with two fenced code blocks. -/
def c4DocB : List Char :=
  ("A\n```\ncode1\n```\nB\n```\ncode2\n```\nC").data

/-- C4 witness oracle: a padded refinement response. -/
def c4WitOracle : Oracle :=
  ⟨fun site =>
    match site with
    | .outlineRefinement => Except.ok ("  new outlines  ").data
    | _ => Except.error ()⟩

/-- A well-formed oracle answering every call site with the same non-blank
text, witnessing the artifact guarantees of a completed run. -/
def c1WitOracle : Oracle :=
  ⟨fun _ => Except.ok (("Hello world").data)⟩

/-! ## Helper lemmas -/

lemma bool_if_false {α : Type} (a b : α) : (if false = true then a else b) = b := rfl

lemma firstIndexOf_decomp :
    ∀ (s pat : List Char) (i : Nat), firstIndexOf s pat = some i →
      s = s.take i ++ pat ++ s.drop (i + pat.length) := by
  intro s
  induction s with
  | nil =>
    intro pat i h
    rw [firstIndexOf] at h
    split at h
    next hemp =>
      injection h with h
      subst h
      have hpat : pat = [] := List.isEmpty_iff.mp hemp
      subst hpat
      rfl
    next hemp => exact absurd h (by simp)
  | cons c tl ih =>
    intro pat i h
    rw [firstIndexOf] at h
    split at h
    next hpre =>
      injection h with h
      subst h
      obtain ⟨t, ht⟩ := List.isPrefixOf_iff_prefix.mp hpre
      rw [← ht]
      simp [List.drop_left]
    next hpre =>
      cases hft : firstIndexOf tl pat with
      | none => rw [hft] at h; exact absurd h (by simp)
      | some j =>
        rw [hft] at h
        simp only [Option.map_some'] at h
        injection h with h
        subst h
        have hdec := ih pat j hft
        calc c :: tl
            = c :: (tl.take j ++ pat ++ tl.drop (j + pat.length)) := by rw [← hdec]
          _ = (c :: tl).take (j + 1) ++ pat ++ (c :: tl).drop (j + 1 + pat.length) := by
              simp [List.take_succ_cons, List.drop_succ_cons, Nat.succ_add]

lemma firstIndexOf_append :
    ∀ (a pat b : List Char), ∃ i, firstIndexOf (a ++ pat ++ b) pat = some i := by
  intro a
  induction a with
  | nil =>
    intro pat b
    match pat with
    | [] => exact ⟨0, by cases b <;> simp [firstIndexOf]⟩
    | pc :: ptl =>
      refine ⟨0, ?_⟩
      have hpre : (pc :: ptl).isPrefixOf (pc :: (ptl ++ b)) = true := by
        apply List.isPrefixOf_iff_prefix.mpr
        exact ⟨b, by simp⟩
      simp only [List.nil_append, List.cons_append]
      rw [firstIndexOf, if_pos hpre]
  | cons c ctl ih =>
    intro pat b
    obtain ⟨j, hj⟩ := ih pat b
    rw [List.cons_append, List.cons_append]
    by_cases hpre : pat.isPrefixOf (c :: (ctl ++ pat ++ b)) = true
    · refine ⟨0, ?_⟩
      rw [firstIndexOf, if_pos ?_]
      simpa using hpre
    · refine ⟨j + 1, ?_⟩
      rw [firstIndexOf, if_neg ?_]
      · rw [show ctl ++ pat ++ b = (ctl ++ pat) ++ b from by simp] at hj ⊢
        rw [hj]
        rfl
      · simpa using hpre

lemma jsReplaceFirst_decomp (s pat repl : List Char)
    (hocc : ∃ a b, s = a ++ pat ++ b) :
    ∃ pre post, s = pre ++ pat ++ post ∧
      jsReplaceFirst s pat repl = pre ++ dollarExpand pat pre post repl ++ post := by
  obtain ⟨a, b, hs⟩ := hocc
  obtain ⟨i, hi⟩ : ∃ i, firstIndexOf s pat = some i := by
    subst hs
    exact firstIndexOf_append a pat b
  refine ⟨s.take i, s.drop (i + pat.length), firstIndexOf_decomp s pat i hi, ?_⟩
  unfold jsReplaceFirst
  rw [hi]

lemma takeWhile_append_drop_length (l : List Char) (p : Char → Bool) :
    l.takeWhile p ++ l.drop (l.takeWhile p).length = l := by
  conv_rhs => rw [← List.take_append_drop (l.takeWhile p).length l]
  rw [← List.prefix_iff_eq_take.mp (List.takeWhile_prefix p)]

lemma span_occurs_generic (md lit w r2 X : List Char) (p : Nat)
    (hdec : md = md.take p ++ lit ++ (w ++ r2))
    (hX : ∃ Y, r2 = X ++ Y) :
    ∃ a b, md = a ++ (lit ++ w ++ X) ++ b := by
  obtain ⟨Y, hY⟩ := hX
  refine ⟨md.take p, Y, ?_⟩
  conv_lhs => rw [hdec]
  rw [hY]
  simp [List.append_assoc]

lemma coreLogicSpan_occurs (md span : List Char) (h : coreLogicSpan md = some span) :
    ∃ a b, md = a ++ span ++ b := by
  unfold coreLogicSpan at h
  cases hfi : firstIndexOf md ("### Core Logic Outlines").data with
  | none => rw [hfi] at h; exact absurd h (by simp)
  | some p =>
    rw [hfi] at h
    dsimp only at h
    have hdec0 := firstIndexOf_decomp md _ p hfi
    have hdec : md = md.take p ++ ("### Core Logic Outlines").data ++
        ((md.drop (p + ("### Core Logic Outlines").data.length)).takeWhile jsWsChar ++
         (md.drop (p + ("### Core Logic Outlines").data.length)).drop
           ((md.drop (p + ("### Core Logic Outlines").data.length)).takeWhile jsWsChar).length) := by
      rw [takeWhile_append_drop_length]
      exact hdec0
    cases hfi2 : firstIndexOf
        ((md.drop (p + ("### Core Logic Outlines").data.length)).drop
          ((md.drop (p + ("### Core Logic Outlines").data.length)).takeWhile jsWsChar).length)
        (("##").data) with
    | some t =>
      rw [hfi2] at h
      injection h with h
      rw [← h]
      exact span_occurs_generic md _ _ _ _ p hdec
        ⟨_, (List.take_append_drop (t + 2) _).symm⟩
    | none =>
      rw [hfi2] at h
      injection h with h
      rw [← h]
      exact span_occurs_generic md _ _ _ _ p hdec ⟨[], by simp⟩

lemma nl_not_mem_outlineCaptureLoop :
    ∀ (cs : List Char) (b : Bool), '\n' ∉ outlineCaptureLoop b cs := by
  intro cs
  induction cs with
  | nil => intro b; simp [outlineCaptureLoop]
  | cons c tl ih =>
    intro b
    by_cases h1 : (b && hashTermAt (c :: tl)) = true
    · simp [outlineCaptureLoop, h1]
    · by_cases h2 : wsThenLineEnd (c :: tl) = true
      · simp [outlineCaptureLoop, h1, h2]
      · simp only [outlineCaptureLoop, h1, h2, if_false]
        intro hmem
        rcases List.mem_cons.mp hmem with h | h
        · apply h2
          rw [← h]
          simp [wsThenLineEnd, jsLineTerm]
        · exact ih _ h

lemma nl_not_mem_outlineMatchAt {cs cap : List Char}
    (h : outlineMatchAt cs = some cap) : '\n' ∉ cap := by
  unfold outlineMatchAt at h
  dsimp only at h
  split_ifs at h
  injection h with h
  subst h
  exact nl_not_mem_outlineCaptureLoop _ _

lemma nl_not_mem_outlineSectionFind :
    ∀ (cs : List Char) (b : Bool) (cap : List Char),
      outlineSectionFind b cs = some cap → '\n' ∉ cap := by
  intro cs
  induction cs with
  | nil => intro b cap h; simp [outlineSectionFind] at h
  | cons c tl ih =>
    intro b cap h
    rw [outlineSectionFind] at h
    split at h
    next cap2 hm =>
      injection h with h
      subst h
      rcases b with _ | _
      · simp at hm
      · exact nl_not_mem_outlineMatchAt hm
    next hm =>
      exact ih _ _ h

lemma jsSplitAux_of_no_nl :
    ∀ (cs : List Char) (fuel : Nat) (acc : List Char),
      '\n' ∉ cs → cs.length ≤ fuel →
      jsSplitAux ['\n'] fuel cs acc = [acc.reverse ++ cs] := by
  intro cs
  induction cs with
  | nil => intro fuel acc _ _; cases fuel <;> simp [jsSplitAux]
  | cons c tl ih =>
    intro fuel acc hmem hlen
    cases fuel with
    | zero => simp at hlen
    | succ f =>
      have hc : ¬ (['\n'].isPrefixOf (c :: tl) = true) := by
        simp only [List.isPrefixOf, List.isPrefixOf_nil_left, Bool.and_true]
        intro hcon
        exact hmem (by simp [List.mem_cons, (beq_iff_eq.mp hcon).symm])
      rw [jsSplitAux, if_neg hc]
      rw [ih f (c :: acc) (fun hm => hmem (List.mem_cons_of_mem _ hm))
        (by simpa using Nat.le_of_succ_le_succ hlen)]
      simp

lemma parseOutlinesFromMd_eq_nil (md : List Char) : parseOutlinesFromMd md = [] := by
  unfold parseOutlinesFromMd
  split
  · rfl
  next cap hfind =>
    split
    · rfl
    next hne =>
      have hnl : '\n' ∉ cap := nl_not_mem_outlineSectionFind md true cap hfind
      have hsplit : jsSplit cap ['\n'] = [cap] := by
        unfold jsSplit
        rw [jsSplitAux_of_no_nl cap (cap.length + 1) [] hnl (Nat.le_succ _)]
        simp
      rw [hsplit]
      unfold outlinesLoop
      split
      · unfold outlinesLoop
        simp [jsTrim]
      · unfold outlinesLoop
        rfl

lemma modesParseAttempt_nil : modesParseAttempt [] = none := rfl

set_option maxRecDepth 8000 in
lemma fallbackSmall_ne : jsonStringify2 fallbackModesSmall ≠ [] := by decide

set_option maxRecDepth 8000 in
lemma fallbackLarge_ne : jsonStringify2 fallbackModesLarge ≠ [] := by decide

set_option maxRecDepth 8000 in
lemma planIssues_nil : (planValidationIssues []).isEmpty = false := by decide

set_option maxRecDepth 40000 in
lemma fallbackPlanText_ne (cc a b : List Char) : fallbackPlanText cc a b ≠ [] := by
  simp [fallbackPlanText]

lemma bool_if_true {α : Type} (a b : α) : (if true = true then a else b) = a := rfl

lemma modes_roomodes_ne (o : Oracle) (md : List Char) (out : ModesOut)
    (hok : (runModesGenerationStage o false md).1 = Except.ok out) :
    out.roomodesResult ≠ [] := by
  cases hresp : o.respond CallSite.modesGen with
  | error e =>
    simp only [runModesGenerationStage, callLLM, hresp, bool_if_false] at hok
    try dsimp only at hok
    rw [show modesParseAttempt (modesFenceStrip (jsTrim [cLBrace, cRBrace])) = none
      from rfl] at hok
    try dsimp only at hok
    split at hok
    all_goals
      injection hok with hok
      subst hok
      first
        | exact fallbackSmall_ne
        | exact fallbackLarge_ne
  | ok raw =>
    simp only [runModesGenerationStage, callLLM, hresp, bool_if_false] at hok
    try dsimp only at hok
    cases hpa : modesParseAttempt (modesFenceStrip (jsTrim raw)) with
    | none =>
      rw [hpa] at hok
      try dsimp only at hok
      split at hok
      all_goals
        injection hok with hok
        subst hok
        first
          | exact fallbackSmall_ne
          | exact fallbackLarge_ne
    | some ms =>
      rw [hpa] at hok
      try dsimp only at hok
      cases hms : modeSlugsOf ms with
      | error e2 =>
        rw [hms] at hok
        try dsimp only at hok
        split at hok
        all_goals
          injection hok with hok
          subst hok
          first
            | exact fallbackSmall_ne
            | exact fallbackLarge_ne
      | ok sf =>
        rw [hms] at hok
        try dsimp only at hok
        injection hok with hok
        subst hok
        dsimp only
        intro h0
        rw [h0] at hpa
        rw [modesParseAttempt_nil] at hpa
        exact absurd hpa (by simp)

lemma planFallbackBuild_ne (cc : List Char) (slugs : List JsVal) (fb : List Char)
    (h : planFallbackBuild cc slugs = Except.ok fb) : fb ≠ [] := by
  unfold planFallbackBuild at h
  cases h1 : findSlug primarySlugPred slugs with
  | error e1 =>
    rw [h1] at h
    exact absurd h (by simp)
  | ok prim0 =>
    rw [h1] at h
    cases h2 : findSlug delegateSlugPred slugs with
    | error e2 =>
      rw [h2] at h
      try dsimp only at h
      exact absurd h (by simp)
    | ok del0 =>
      rw [h2] at h
      try dsimp only at h
      injection h with h
      subst h
      exact fallbackPlanText_ne _ _ _

lemma plan_assembly_ne (o : Oracle) (cc md : List Char) (slugs : List JsVal)
    (p : List Char) (b : Bool)
    (hok : (runPlanAssemblyStage o false cc md slugs).1 = Except.ok (p, b)) :
    p ≠ [] := by
  cases hresp : o.respond CallSite.planAssembly with
  | error e =>
    simp only [runPlanAssemblyStage, callLLM, hresp, bool_if_false] at hok
    try dsimp only at hok
    cases hfb : planFallbackBuild cc slugs with
    | error e2 =>
      rw [hfb] at hok
      try dsimp only at hok
      exact absurd hok (by simp)
    | ok fb =>
      rw [hfb] at hok
      try dsimp only at hok
      injection hok with hok
      injection hok with hok1 hok2
      subst hok1
      exact planFallbackBuild_ne cc slugs fb hfb
  | ok draft =>
    simp only [runPlanAssemblyStage, callLLM, hresp, bool_if_false] at hok
    try dsimp only at hok
    by_cases hv : (planValidationIssues draft).isEmpty = true
    · rw [if_pos hv] at hok
      try dsimp only at hok
      injection hok with hok
      injection hok with hok1 hok2
      subst hok1
      intro h0
      rw [h0] at hv
      rw [planIssues_nil] at hv
      exact absurd hv (by simp)
    · rw [if_neg hv] at hok
      try dsimp only at hok
      cases hr2 : o.respond CallSite.planRefinement with
      | error e2 =>
        rw [hr2] at hok
        try dsimp only at hok
        cases hfb : planFallbackBuild cc slugs with
        | error e3 =>
          rw [hfb] at hok
          try dsimp only at hok
          exact absurd hok (by simp)
        | ok fb =>
          rw [hfb] at hok
          try dsimp only at hok
          injection hok with hok
          injection hok with hok1 hok2
          subst hok1
          exact planFallbackBuild_ne cc slugs fb hfb
      | ok p2 =>
        rw [hr2] at hok
        try dsimp only at hok
        by_cases hg : (!p2.isEmpty &&
            jsIncludes p2 ("# Roo Code Execution Plan:").data) = true
        · rw [if_pos hg] at hok
          try dsimp only at hok
          injection hok with hok
          injection hok with hok1 hok2
          subst hok1
          rw [Bool.and_eq_true] at hg
          intro h0
          rw [h0] at hg
          exact absurd hg.1 (by simp)
        · rw [if_neg hg] at hok
          try dsimp only at hok
          cases hfb : planFallbackBuild cc slugs with
          | error e3 =>
            rw [hfb] at hok
            try dsimp only at hok
            exact absurd hok (by simp)
          | ok fb =>
            rw [hfb] at hok
            try dsimp only at hok
            injection hok with hok
            injection hok with hok1 hok2
            subst hok1
            exact planFallbackBuild_ne cc slugs fb hfb

lemma plan_refine_ne (o : Oracle) (hwf : Oracle.WF o) (fp : List Char) (hfp : fp ≠ [])
    (out : List Char) (hok : (runPlanRefinementStage o false fp).1 = Except.ok out) :
    out ≠ [] := by
  cases hresp : o.respond CallSite.planReview with
  | error e =>
    simp only [runPlanRefinementStage, callLLM, hresp, bool_if_false] at hok
    try dsimp only at hok
    injection hok with hok
    subst hok
    exact hfp
  | ok v =>
    simp only [runPlanRefinementStage, callLLM, hresp, bool_if_false] at hok
    try dsimp only at hok
    by_cases hc : jsToUpper (jsTrim v) ≠ ("OK").data
    · rw [if_pos hc] at hok
      injection hok with hok
      subst hok
      exact hwf CallSite.planReview v hresp
    · rw [if_neg hc] at hok
      injection hok with hok
      subst hok
      exact hfp


lemma kA1 : ((".roomodes").data == (".clinerules-code").data) = false := rfl

lemma kA2 : ((".roomodes").data == (".rooignore").data) = false := rfl

lemma kA3 : ((".roomodes").data == (".clinerules").data) = false := rfl

lemma kA4 (m : List Char) :
    ((".roomodes").data == (".roo/system-prompt-").data ++ m) = false := rfl

lemma kA5 : ((".roomodes").data == (".roomodes").data) = true := rfl

lemma kB1 : (("roo-plan.md").data == (".clinerules-code").data) = false := rfl

lemma kB2 : (("roo-plan.md").data == (".rooignore").data) = false := rfl

lemma kB3 : (("roo-plan.md").data == (".clinerules").data) = false := rfl

lemma kB4 (m : List Char) :
    (("roo-plan.md").data == (".roo/system-prompt-").data ++ m) = false := rfl

lemma kB5 : (("roo-plan.md").data == (".roomodes").data) = false := rfl

lemma kB6 : (("roo-plan.md").data == ("roo-plan.md").data) = true := rfl

lemma c1_finish (r4 r45 r46 f1 f2 : Option (List Char)) (mo : ModesOut) (fp : List Char)
    (arts : List (List Char × List Char))
    (hmo : mo.roomodesResult ≠ []) (hfp : fp ≠ [])
    (harts : arts =
      ((match r4 with
        | some r => [((".clinerules-code").data, r)]
        | none => []) ++
       (match r45 with
        | some r => [((".rooignore").data, r)]
        | none => []) ++
       (match r46 with
        | some r => [((".clinerules").data, r)]
        | none => []) ++
       (match f1, f2 with
        | some f, some m =>
          if !f.isEmpty && !m.isEmpty then [((".roo/system-prompt-").data ++ m, f)]
          else []
        | _, _ => []) ++
       (if !mo.roomodesResult.isEmpty then [((".roomodes").data, mo.roomodesResult)]
        else [])) ++
      (if !fp.isEmpty then [(("roo-plan.md").data, fp)] else [])) :
    ∃ m p, List.lookup ((".roomodes").data) arts = some m ∧ m ≠ [] ∧
      List.lookup (("roo-plan.md").data) arts = some p ∧ p ≠ [] := by
  subst harts
  have hmoI : mo.roomodesResult.isEmpty = false := by
    cases hxe : mo.roomodesResult.isEmpty with
    | false => rfl
    | true => exact absurd (List.isEmpty_iff.mp hxe) hmo
  have hfpI : fp.isEmpty = false := by
    cases hxe : fp.isEmpty with
    | false => rfl
    | true => exact absurd (List.isEmpty_iff.mp hxe) hfp
  refine ⟨mo.roomodesResult, fp, ?_, hmo, ?_, hfp⟩
  all_goals
    simp only [hmoI, hfpI, Bool.not_false, bool_if_true]
    cases r4 <;> cases r45 <;> cases r46 <;> cases f1 <;> cases f2 <;> dsimp only
    all_goals try split
    all_goals try exact absurd trivial (by assumption)
    all_goals
      simp [List.lookup, kA1, kA2, kA3, kA4, kA5, kB1, kB2, kB3, kB4, kB5, kB6]

lemma c1WitWF : Oracle.WF c1WitOracle := by
  intro site s hs
  injection hs with hs
  subst hs
  decide

/-! ## Claims -/

/-- Claim C10: every value in the outline map returned by the extractor is
non-blank; an entry with an empty accumulated body contributes no key.
(Proved via the stronger invariant that the section capture never spans
more than one line, so the map is in fact always empty.) -/
theorem c10_outline_map_values_nonblank (md : List Char) :
    (parseOutlinesFromMd md).all (fun kv => !(jsTrim kv.2).isEmpty) = true := by
  rw [parseOutlinesFromMd_eq_nil]
  rfl

/-- Claim C8: with the cancellation token set before stage 1, the run ends
in the cancellation outcome (distinct from `fatal`), no LLM call is issued,
and no result (hence no artifact map) is produced. -/
theorem c8_cancelled_before_stage1 (o : Oracle) (idea : List Char) :
    runAdvancedReasoningEngine o true idea = (Except.error EngineErr.cancelled, []) := by
  rfl

set_option maxRecDepth 100000 in
/-- Claim C5, counterexample: the extractor keeps the leading `./`, so the
first path extracts to `./src/index.js`, not `src/index.js` as claimed. -/
theorem c5_counterexample :
    (parseStructureFromJsonMd c5Doc).map Prod.snd ≠
      [("src/index.js").data, (".gitignore").data] ∧
    (parseStructureFromJsonMd c5Doc).map Prod.snd =
      [("./src/index.js").data, (".gitignore").data] := by
  constructor
  · decide
  · decide

set_option maxRecDepth 100000 in
/-- Claim C5 (amended): path `./src/index.js/` extracts to `./src/index.js`
(trailing slash stripped, leading `./` preserved) and `gitignore` extracts
to `.gitignore`. -/
theorem c5_path_normalization_amended :
    parseStructureFromJsonMd c5Doc =
      [(("file").data, ("./src/index.js").data),
       (("file").data, (".gitignore").data)] := by
  decide

/-- Claim C3, counterexample: in stage 1, a non-`OK` validation response
becomes the new analysis exactly as returned — untrimmed — so the new
content is not the trimmed response claimed. -/
theorem c3_counterexample :
    (runAnalysisStage c3Oracle false).1 ≠
      Except.ok (jsTrim ("  Revised analysis.  ").data) ∧
    (runAnalysisStage c3Oracle false).1 =
      Except.ok ("  Revised analysis.  ").data := by
  have he : (runAnalysisStage c3Oracle false).1 =
      Except.ok ("  Revised analysis.  ").data := rfl
  refine ⟨?_, he⟩
  rw [he]
  simp only [ne_eq, Except.ok.injEq]
  decide

/-- Claim C3 (amended): an `OK` verdict (trimmed, case-insensitive) keeps
the prior content in both OK/replace stages; any other response becomes the
new content — raw (untrimmed) in stage 1, trimmed in stage 6.5. -/
theorem c3_ok_replace_amended (o : Oracle) (a v : List Char)
    (ha : o.respond CallSite.analysis = Except.ok a)
    (hv : o.respond CallSite.analysisValidation = Except.ok v) :
    ((runAnalysisStage o false).1 =
      Except.ok (if jsToUpper (jsTrim v) = ("OK").data then a else v)) ∧
    ∀ (p w : List Char), o.respond CallSite.planReview = Except.ok w →
      (runPlanRefinementStage o false p).1 =
        Except.ok (if jsToUpper (jsTrim w) = ("OK").data then p else jsTrim w) := by
  constructor
  · simp only [runAnalysisStage, callLLM, ha, hv]
    by_cases hok : jsToUpper (jsTrim v) = ("OK").data
    · simp [hok]
    · simp [hok]
  · intro p w hw
    simp only [runPlanRefinementStage, callLLM, hw]
    by_cases hok : jsToUpper (jsTrim w) = ("OK").data
    · simp [hok]
    · simp [hok]

/-- Claim C3, witness: a padded case-variant `OK` keeps the analysis, and a
padded non-`OK` review replaces the plan with the trimmed review text. -/
theorem c3_witness :
    ((runAnalysisStage c3WitOracle false).1 =
      Except.ok (if jsToUpper (jsTrim (" oK ").data) = ("OK").data
        then ("Base analysis.").data else (" oK ").data)) ∧
    ((runPlanRefinementStage c3WitOracle false ("plan0").data).1 =
      Except.ok (if jsToUpper (jsTrim ("  better plan ").data) = ("OK").data
        then ("plan0").data else jsTrim ("  better plan ").data)) :=
  ⟨(c3_ok_replace_amended c3WitOracle _ _ rfl rfl).1,
   (c3_ok_replace_amended c3WitOracle _ _ rfl rfl).2 _ _ rfl⟩

/-- Claim C7: stage 2 splits the (possibly validated) document on the
separator literal into trimmed halves, substitutes the fixed placeholder
for an empty (or missing) half, and still returns normally with two
non-empty halves. -/
theorem c7_split_placeholders (o : Oracle) (s v : List Char)
    (hs : o.respond CallSite.structureGen = Except.ok s)
    (hv : o.respond CallSite.structureValidation = Except.ok v) :
    ∃ md cc,
      (runStructuringStage o false).1 = Except.ok (md, cc) ∧
      md ≠ [] ∧ cc ≠ [] ∧
      (let parts := jsSplit (if jsToUpper (jsTrim v) ≠ ("OK").data then v else s) sepLit
       (md = if (jsTrim ((parts.get? 0).getD [])).isEmpty then placeholderMd
             else jsTrim ((parts.get? 0).getD [])) ∧
       (cc = match parts.get? 1 with
             | none => placeholderCmd
             | some h => if (jsTrim h).isEmpty then placeholderCmd else jsTrim h)) := by
  have hrun : (runStructuringStage o false).1 =
      Except.ok
        ((match ((jsSplit (if jsToUpper (jsTrim v) ≠ ("OK").data then v else s)
            sepLit).get? 0).map jsTrim with
          | some m => if m.isEmpty then placeholderMd else m
          | none => placeholderMd),
         (match ((jsSplit (if jsToUpper (jsTrim v) ≠ ("OK").data then v else s)
            sepLit).get? 1).map jsTrim with
          | some m => if m.isEmpty then placeholderCmd else m
          | none => placeholderCmd)) := by
    simp only [runStructuringStage, callLLM, hs, hv]
    rfl
  refine ⟨_, _, hrun, ?_, ?_, ?_⟩
  · cases hp : (jsSplit (if jsToUpper (jsTrim v) ≠ ("OK").data then v else s)
        sepLit).get? 0 with
    | none => decide
    | some h =>
      show (if (jsTrim h).isEmpty then placeholderMd else jsTrim h) ≠ []
      by_cases he : (jsTrim h).isEmpty
      · simp only [he, if_true]
        decide
      · rw [if_neg he]
        intro hcon
        apply he
        rw [hcon]
        rfl
  · cases hp : (jsSplit (if jsToUpper (jsTrim v) ≠ ("OK").data then v else s)
        sepLit).get? 1 with
    | none => decide
    | some h =>
      show (if (jsTrim h).isEmpty then placeholderCmd else jsTrim h) ≠ []
      by_cases he : (jsTrim h).isEmpty
      · simp only [he, if_true]
        decide
      · rw [if_neg he]
        intro hcon
        apply he
        rw [hcon]
        rfl
  · dsimp only
    constructor
    · cases hp : (jsSplit (if jsToUpper (jsTrim v) ≠ ("OK").data then v else s)
          sepLit).get? 0 with
      | none => rfl
      | some h => rfl
    · cases hp : (jsSplit (if jsToUpper (jsTrim v) ≠ ("OK").data then v else s)
          sepLit).get? 1 with
      | none => rfl
      | some h => rfl

/-- Claim C7, witness: a separator-free structure response yields its own
trimmed text as the structure half and the literal placeholder as the
command half, with no error. -/
theorem c7_witness :
    ∃ md cc,
      (runStructuringStage c7WitOracle false).1 = Except.ok (md, cc) ∧
      md ≠ [] ∧ cc ≠ [] ∧
      (let parts := jsSplit
        (if jsToUpper (jsTrim ("OK").data) ≠ ("OK").data then ("OK").data
         else (" structure only, no separator ").data) sepLit
       (md = if (jsTrim ((parts.get? 0).getD [])).isEmpty then placeholderMd
             else jsTrim ((parts.get? 0).getD [])) ∧
       (cc = match parts.get? 1 with
             | none => placeholderCmd
             | some h => if (jsTrim h).isEmpty then placeholderCmd else jsTrim h)) :=
  c7_split_placeholders c7WitOracle _ _ rfl rfl

/-- Claim C2: whenever stage-5 generation falls back (failed call,
unparseable response, or missing/empty `customModes`), the synthesized set
is the 20-line-heuristic one: fewer than 20 lines gives exactly one
`developer` mode with delegate list `["developer"]`, otherwise exactly the
`project-manager`/`code` pair with delegate list `["code"]`, and
`parsedModesSuccessfully` is `false` in both cases. -/
theorem c2_modes_fallback (o : Oracle) (md : List Char)
    (hfb : modesFallbackTriggered o) :
    ((jsSplit md ['\n']).length < 20 →
      (runModesGenerationStage o false md).1 = Except.ok
        { roomodesResult := jsonStringify2 fallbackModesSmall,
          techSpecificSlugs := [JsVal.jstr ("developer").data],
          parsedModesSuccessfully := false }) ∧
    (¬ (jsSplit md ['\n']).length < 20 →
      (runModesGenerationStage o false md).1 = Except.ok
        { roomodesResult := jsonStringify2 fallbackModesLarge,
          techSpecificSlugs := [JsVal.jstr ("code").data],
          parsedModesSuccessfully := false }) ∧
    modeSetSize fallbackModesSmall = 1 ∧
    modeSetSlugs fallbackModesSmall = [("developer").data] ∧
    modeSetSize fallbackModesLarge = 2 ∧
    modeSetSlugs fallbackModesLarge = [("project-manager").data, ("code").data] := by
  unfold modesFallbackTriggered at hfb
  have hrun : (runModesGenerationStage o false md).1 =
      (if (jsSplit md ['\n']).length < 20 then
        Except.ok
          { roomodesResult := jsonStringify2 fallbackModesSmall,
            techSpecificSlugs := [JsVal.jstr ("developer").data],
            parsedModesSuccessfully := false }
       else
        Except.ok
          { roomodesResult := jsonStringify2 fallbackModesLarge,
            techSpecificSlugs := [JsVal.jstr ("code").data],
            parsedModesSuccessfully := false }) := by
    cases hresp : o.respond CallSite.modesGen with
    | error e =>
      have hpa : modesParseAttempt (modesFenceStrip (jsTrim [cLBrace, cRBrace])) = none := rfl
      simp only [runModesGenerationStage, callLLM, hresp, bool_if_false]
      try dsimp only
      rw [hpa]
      split
      case h_1 out heq => exact absurd heq (by simp)
      case h_2 heq => split <;> rfl
    | ok raw =>
      rw [hresp] at hfb
      simp only [runModesGenerationStage, callLLM, hresp, bool_if_false]
      try dsimp only
      rw [hfb]
      split
      case h_1 out heq => exact absurd heq (by simp)
      case h_2 heq => split <;> rfl
  refine ⟨?_, ?_, by decide, by decide, by decide, by decide⟩
  · intro hlt
    rw [hrun, if_pos hlt]
  · intro hlt
    rw [hrun, if_neg hlt]

/-- Claim C2, witness: an unparseable modes response over a short structure
document synthesizes the single-developer fallback. -/
theorem c2_witness :
    (runModesGenerationStage c2WitOracle false ("short doc").data).1 = Except.ok
      { roomodesResult := jsonStringify2 fallbackModesSmall,
        techSpecificSlugs := [JsVal.jstr ("developer").data],
        parsedModesSuccessfully := false } := by
  have hfb : modesFallbackTriggered c2WitOracle := by
    show modesParseAttempt (modesFenceStrip (jsTrim (("this is not json").data))) = none
    rfl
  exact (c2_modes_fallback c2WitOracle (("short doc").data) hfb).1 (by decide)

/-- Claim C9: every stage-5 outcome hands plan assembly a non-empty
delegate-slug list that never contains `project-orchestrator`; when a
successful parse leaves no delegate candidate after the filter, `code` is
appended whether or not a `code` mode exists among the generated modes. -/
theorem c9_delegate_slugs (o : Oracle) (md : List Char) (out : ModesOut)
    (hok : (runModesGenerationStage o false md).1 = Except.ok out) :
    out.techSpecificSlugs ≠ [] ∧
    (∀ v ∈ out.techSpecificSlugs, isStrVal v ("project-orchestrator").data = false) ∧
    (∀ raw ms sf, o.respond CallSite.modesGen = Except.ok raw →
      modesParseAttempt (modesFenceStrip (jsTrim raw)) = some ms →
      modeSlugsOf ms = Except.ok sf →
      delegateFilter sf = [] →
      out.techSpecificSlugs = [JsVal.jstr ("code").data]) := by
  have singletonSide : ∀ (t : List Char),
      isStrVal (JsVal.jstr t) ("project-orchestrator").data = false →
      (∀ v ∈ [JsVal.jstr t], isStrVal v ("project-orchestrator").data = false) := by
    intro t ht v hv
    rw [List.mem_singleton] at hv
    subst hv
    exact ht
  cases hresp : o.respond CallSite.modesGen with
  | error e =>
    simp only [runModesGenerationStage, callLLM, hresp, bool_if_false] at hok
    try dsimp only at hok
    rw [show modesParseAttempt (modesFenceStrip (jsTrim [cLBrace, cRBrace])) = none
      from rfl] at hok
    try dsimp only at hok
    split at hok
    all_goals
      injection hok with hok
      subst hok
      refine ⟨by simp, singletonSide _ (by rfl), ?_⟩
      intro raw ms sf hresp2 _ _ _
      exact absurd hresp2 (by simp)
  | ok raw =>
    simp only [runModesGenerationStage, callLLM, hresp, bool_if_false] at hok
    try dsimp only at hok
    cases hpa : modesParseAttempt (modesFenceStrip (jsTrim raw)) with
    | none =>
      rw [hpa] at hok
      try dsimp only at hok
      split at hok
      all_goals
        injection hok with hok
        subst hok
        refine ⟨by simp, singletonSide _ (by rfl), ?_⟩
        intro raw2 ms sf hresp2 hpa2 _ _
        injection hresp2 with hresp2
        subst hresp2
        exact absurd (hpa.symm.trans hpa2) (by simp)
    | some ms =>
      rw [hpa] at hok
      try dsimp only at hok
      cases hms : modeSlugsOf ms with
      | error e2 =>
        rw [hms] at hok
        try dsimp only at hok
        split at hok
        all_goals
          injection hok with hok
          subst hok
          refine ⟨by simp, singletonSide _ (by rfl), ?_⟩
          intro raw2 ms2 sf hresp2 hpa2 hms2 _
          injection hresp2 with hresp2
          subst hresp2
          have hmseq := Option.some.inj (hpa.symm.trans hpa2)
          subst hmseq
          exact absurd (hms.symm.trans hms2) (by simp)
      | ok sf =>
        rw [hms] at hok
        try dsimp only at hok
        injection hok with hok
        subst hok
        dsimp only
        by_cases hemp : (delegateFilter sf).isEmpty = true
        · have hfl : delegateFilter sf = [] := by
            rw [← List.isEmpty_iff]
            exact hemp
          refine ⟨?_, ?_, ?_⟩
          · rw [if_pos hemp, hfl]
            simp
          · intro v hv
            rw [if_pos hemp, hfl] at hv
            simp only [List.nil_append, List.mem_singleton] at hv
            subst hv
            rfl
          · intro raw2 ms2 sf2 hresp2 hpa2 hms2 hflt
            rw [if_pos hemp, hfl]
            rfl
        · refine ⟨?_, ?_, ?_⟩
          · rw [if_neg hemp]
            intro hcon
            apply hemp
            rw [hcon]
            rfl
          · intro v hv
            rw [if_neg hemp] at hv
            obtain ⟨a, _, hfa⟩ := List.mem_filterMap.mp hv
            match a with
            | some sv =>
              dsimp only at hfa
              by_cases hcond : (jsTruthy sv &&
                  !isStrVal sv ("project-orchestrator").data) = true
              · rw [if_pos hcond] at hfa
                injection hfa with hfa
                subst hfa
                simp only [Bool.and_eq_true] at hcond
                simpa using hcond.2
              · rw [if_neg hcond] at hfa
                exact absurd hfa (by simp)
            | none =>
              exact absurd hfa (by simp)
          · intro raw2 ms2 sf2 hresp2 hpa2 hms2 hflt
            injection hresp2 with hresp2
            subst hresp2
            have hmseq := Option.some.inj (hpa.symm.trans hpa2)
            subst hmseq
            have hsfeq := Except.ok.inj (hms.symm.trans hms2)
            subst hsfeq
            rw [hflt] at hemp
            simp at hemp

/-- Claim C9, witness: a mode set whose only slugs are
`project-orchestrator` and an empty string still yields the delegate list
`["code"]` — non-empty and orchestrator-free. -/
theorem c9_witness :
    ∃ out, (runModesGenerationStage c9WitOracle false ("doc").data).1 = Except.ok out ∧
      out.techSpecificSlugs ≠ [] ∧
      (∀ v ∈ out.techSpecificSlugs, isStrVal v ("project-orchestrator").data = false) := by
  obtain ⟨out, hout⟩ :
      ∃ out, (runModesGenerationStage c9WitOracle false ("doc").data).1 = Except.ok out :=
    ⟨_, rfl⟩
  obtain ⟨h1, h2, _⟩ := c9_delegate_slugs c9WitOracle (("doc").data) out hout
  exact ⟨out, hout, h1, h2⟩

/-- Claim C6, counterexample: a fence-wrapped but otherwise valid
`.rooignore` response is dropped, although the claimed normalization would
make it pass the predicate — the ignore-rules stage tests the raw text. -/
theorem c6_counterexample :
    (runRooignoreGenerationStage c6Oracle false).1 = Except.ok none ∧
    rooignoreValidB (rulesNormalize
      (jsTrim ("```\n# .rooignore for proj\nnode_modules/\n```").data)) = true := by
  constructor
  · rfl
  · decide

/-- Claim C6 (amended): only the coding-rules stage normalizes (fence strip
plus preamble strip) before validating and returns the normalized text; the
ignore-rules and workspace-rules stages validate and return the raw
response; the mode-override stage applies its non-blank predicate to the
raw response and installs the raw response; the mode-set stage parses the
merely fence-stripped trimmed response. -/
theorem c6_normalization_amended :
    (∀ (o : Oracle) (raw : List Char), o.respond CallSite.rulesGen = Except.ok raw →
      rulesValidB (rulesNormalize (jsTrim raw)) = true →
      (runRulesGenerationStage o false).1 =
        Except.ok (some (rulesNormalize (jsTrim raw)))) ∧
    (∀ (o : Oracle) (raw : List Char), o.respond CallSite.rooignoreGen = Except.ok raw →
      rooignoreValidB raw = true →
      (runRooignoreGenerationStage o false).1 = Except.ok (some raw)) ∧
    (∀ (o : Oracle) (raw : List Char), o.respond CallSite.workspaceRulesGen = Except.ok raw →
      workspaceRulesValidB raw = true →
      (runWorkspaceRulesGenerationStage o false).1 = Except.ok (some raw)) ∧
    (∀ (o : Oracle) (ar smd rawMode raw : List Char),
      footgunFind (ar ++ '\n' :: smd) = some rawMode →
      o.respond CallSite.footgunGen = Except.ok raw →
      (!(jsTrim raw).isEmpty) = true →
      (runFootgunPromptGenerationStage o false ar smd).1 =
        Except.ok (some raw, some (jsToLower (jsTrim rawMode)))) ∧
    (∀ (o : Oracle) (raw md : List Char) (out : ModesOut),
      o.respond CallSite.modesGen = Except.ok raw →
      (runModesGenerationStage o false md).1 = Except.ok out →
      out.parsedModesSuccessfully = true →
      out.roomodesResult = modesFenceStrip (jsTrim raw)) := by
  refine ⟨?_, ?_, ?_, ?_, ?_⟩
  · intro o raw hresp hval
    simp only [runRulesGenerationStage, callLLM, hresp, bool_if_false]
    try dsimp only
    rw [if_pos hval]
  · intro o raw hresp hval
    simp only [runRooignoreGenerationStage, callLLM, hresp, bool_if_false]
    try dsimp only
    rw [if_pos hval]
  · intro o raw hresp hval
    simp only [runWorkspaceRulesGenerationStage, callLLM, hresp, bool_if_false]
    try dsimp only
    rw [if_pos hval]
  · intro o ar smd rawMode raw hfind hresp hval
    simp only [runFootgunPromptGenerationStage, hfind, callLLM, hresp, bool_if_false]
    try dsimp only
    rw [if_pos hval]
  · intro o raw md out hresp hok hsuc
    simp only [runModesGenerationStage, callLLM, hresp, bool_if_false] at hok
    try dsimp only at hok
    cases hpa : modesParseAttempt (modesFenceStrip (jsTrim raw)) with
    | none =>
      rw [hpa] at hok
      try dsimp only at hok
      split at hok
      all_goals
        injection hok with hok
        subst hok
        simp at hsuc
    | some ms =>
      rw [hpa] at hok
      try dsimp only at hok
      cases hms : modeSlugsOf ms with
      | error e2 =>
        rw [hms] at hok
        try dsimp only at hok
        split at hok
        all_goals
          injection hok with hok
          subst hok
          simp at hsuc
      | ok sf =>
        rw [hms] at hok
        try dsimp only at hok
        injection hok with hok
        subst hok
        rfl

/-- Claim C6, witness: the coding-rules stage accepts its fence-wrapped
response after normalization; the ignore-rules and workspace-rules stages
accept raw header-led responses; the mode-override stage accepts and
installs a raw fence-wrapped blank (which the claimed normalization would
reject); the mode-set stage parses its fence-stripped response. -/
theorem c6_witness :
    (runRulesGenerationStage c6WitOracle false).1 =
      Except.ok (some (rulesNormalize (jsTrim
        (("```\n// .clinerules-code for X\n// Primary Tech Stack: js\n```").data)))) ∧
    (runRooignoreGenerationStage c6WitOracle false).1 =
      Except.ok (some (("# .rooignore for X\nnode_modules/").data)) ∧
    (runWorkspaceRulesGenerationStage c6WitOracle false).1 =
      Except.ok (some (("// General Workspace .clinerules for X\nrules").data)) ∧
    (runFootgunPromptGenerationStage c6WitOracle false
        (("Override system prompt for mode dev-ops").data) (("doc").data)).1 =
      Except.ok (some (("```\n\n```").data), some (("dev-ops").data)) ∧
    ∃ out, (runModesGenerationStage c6WitOracle false ("doc").data).1 = Except.ok out ∧
      out.parsedModesSuccessfully = true ∧
      out.roomodesResult = modesFenceStrip (jsTrim
        (("```json\n\x7b\"customModes\": [\x7b\"slug\": \"dev\"\x7d]\x7d\n```").data)) :=
  ⟨c6_normalization_amended.1 c6WitOracle _ rfl (by decide),
   c6_normalization_amended.2.1 c6WitOracle _ rfl (by decide),
   c6_normalization_amended.2.2.1 c6WitOracle _ rfl (by decide),
   c6_normalization_amended.2.2.2.1 c6WitOracle
     (("Override system prompt for mode dev-ops").data) (("doc").data)
     (("dev-ops").data) _ (by decide) rfl (by decide),
   _, rfl, rfl,
   c6_normalization_amended.2.2.2.2 c6WitOracle _ (("doc").data) _ rfl rfl rfl⟩

/-- Claim C4, counterexample: the replace branch wraps the refined content
in newlines (not the bare trimmed content), and the insertion branch
inserts after the first line-terminating fence, not after the last fenced
code block as claimed. -/
theorem c4_counterexample :
    (runOutlineRefinementStage c4Oracle false c4DocA).1 =
      Except.ok (("intro\n\nREFINED\n Next\nrest").data) ∧
    ("intro\n\nREFINED\n Next\nrest").data ≠
      outlineSpliceClaimed c4DocA ("REFINED").data ∧
    (runOutlineRefinementStage c4Oracle false c4DocB).1 =
      Except.ok (("A\n```\n\nREFINED\ncode1\n```\nB\n```\ncode2\n```\nC").data) ∧
    ("A\n```\n\nREFINED\ncode1\n```\nB\n```\ncode2\n```\nC").data ≠
      outlineSpliceClaimed c4DocB ("REFINED").data :=
  ⟨rfl, by decide, rfl, by decide⟩

/-- Claim C4 (amended): with a Core Logic Outlines section, a span of the
document starting at that section is replaced by the trimmed refined
content wrapped in single newlines (JS `$`-escapes expanded); with no
section, two newlines plus the trimmed content are inserted immediately
after the first line-terminating fence, or appended at the end when no
such fence exists. -/
theorem c4_outline_splice_amended (o : Oracle) (md refined : List Char)
    (hresp : o.respond CallSite.outlineRefinement = Except.ok refined) :
    ∃ out, (runOutlineRefinementStage o false md).1 = Except.ok out ∧
      (∀ span, coreLogicSpan md = some span →
        ∃ pre post, md = pre ++ span ++ post ∧
          out = pre ++
            dollarExpand span pre post ('\n' :: (jsTrim refined ++ ['\n'])) ++ post) ∧
      (coreLogicSpan md = none →
        (∀ idx, fenceEndFind md = some idx →
          out = md.take idx ++ ('\n' :: '\n' :: jsTrim refined) ++ md.drop idx) ∧
        (fenceEndFind md = none →
          out = md ++ ('\n' :: '\n' :: jsTrim refined))) := by
  cases hspan : coreLogicSpan md with
  | some span =>
    refine ⟨jsReplaceFirst md span ('\n' :: (jsTrim refined ++ ['\n'])), ?_, ?_, ?_⟩
    · simp only [runOutlineRefinementStage, callLLM, hresp, bool_if_false, hspan]
    · intro span2 hspan2
      injection hspan2 with hspan2
      subst hspan2
      exact jsReplaceFirst_decomp md span _ (coreLogicSpan_occurs md span hspan)
    · intro hnone
      exact absurd hnone (by simp)
  | none =>
    cases hfe : fenceEndFind md with
    | some idx =>
      refine ⟨md.take idx ++ '\n' :: '\n' :: jsTrim refined ++ md.drop idx, ?_, ?_, ?_⟩
      · simp only [runOutlineRefinementStage, callLLM, hresp, bool_if_false, hspan, hfe]
      · intro span2 hspan2
        exact absurd hspan2 (by simp)
      · intro _
        constructor
        · intro idx2 hfe2
          injection hfe2 with hfe2
          subst hfe2
          simp [List.append_assoc]
        · intro hfe2
          exact absurd hfe2 (by simp)
    | none =>
      refine ⟨md ++ '\n' :: '\n' :: jsTrim refined, ?_, ?_, ?_⟩
      · simp only [runOutlineRefinementStage, callLLM, hresp, bool_if_false, hspan, hfe]
      · intro span2 hspan2
        exact absurd hspan2 (by simp)
      · intro _
        constructor
        · intro idx2 hfe2
          exact absurd hfe2 (by simp)
        · intro _
          rfl

/-- Claim C4, witness: the amended splice applied to the sectioned document
and a padded refinement response. -/
theorem c4_witness :
    ∃ out, (runOutlineRefinementStage c4WitOracle false c4DocA).1 = Except.ok out ∧
      (∀ span, coreLogicSpan c4DocA = some span →
        ∃ pre post, c4DocA = pre ++ span ++ post ∧
          out = pre ++ dollarExpand span pre post
            ('\n' :: (jsTrim (("  new outlines  ").data) ++ ['\n'])) ++ post) ∧
      (coreLogicSpan c4DocA = none →
        (∀ idx, fenceEndFind c4DocA = some idx →
          out = c4DocA.take idx ++
            ('\n' :: '\n' :: jsTrim (("  new outlines  ").data)) ++ c4DocA.drop idx) ∧
        (fenceEndFind c4DocA = none →
          out = c4DocA ++ ('\n' :: '\n' :: jsTrim (("  new outlines  ").data)))) :=
  c4_outline_splice_amended c4WitOracle c4DocA (("  new outlines  ").data) rfl

set_option maxRecDepth 100000 in
/-- Claim C1: under the well-formed-oracle assumption (a successful LLM
call never returns whitespace-only text), every completed (non-cancelled,
non-fatal) run yields an artifact map containing a `.roomodes` entry and a
`roo-plan.md` entry, each mapped to non-empty text (real output or
deterministic fallback). -/
theorem c1_required_artifacts (o : Oracle) (tok : Bool) (idea : List Char)
    (res : EngineResult) (hwf : Oracle.WF o)
    (h : (runAdvancedReasoningEngine o tok idea).1 = Except.ok res) :
    ∃ m p, List.lookup ((".roomodes").data) res.artifacts = some m ∧ m ≠ [] ∧
      List.lookup (("roo-plan.md").data) res.artifacts = some p ∧ p ≠ [] := by
  cases tok with
  | true => exact absurd h (by simp [runAdvancedReasoningEngine, runAnalysisStage])
  | false =>
    simp only [runAdvancedReasoningEngine, bool_if_false] at h
    rcases h1 : runAnalysisStage o false with ⟨e1 | a1r, l1⟩
    · rw [h1] at h
      try dsimp only at h
      exact absurd h (by simp)
    rw [h1] at h
    try dsimp only at h
    rcases h2 : runStructuringStage o false with ⟨e2 | ⟨md0, cc⟩, l2⟩
    · rw [h2] at h
      try dsimp only at h
      exact absurd h (by simp)
    rw [h2] at h
    try dsimp only at h
    rcases h3 : runOutlineRefinementStage o false md0 with ⟨e3 | smd, l3⟩
    · rw [h3] at h
      try dsimp only at h
      exact absurd h (by simp)
    rw [h3] at h
    try dsimp only at h
    rcases h4 : runRulesGenerationStage o false with ⟨e4 | r4, l4⟩
    · rw [h4] at h
      try dsimp only at h
      exact absurd h (by simp)
    rw [h4] at h
    try dsimp only at h
    rcases h45 : runRooignoreGenerationStage o false with ⟨e45 | r45, l45⟩
    · rw [h45] at h
      try dsimp only at h
      exact absurd h (by simp)
    rw [h45] at h
    try dsimp only at h
    rcases h46 : runWorkspaceRulesGenerationStage o false with ⟨e46 | r46, l46⟩
    · rw [h46] at h
      try dsimp only at h
      exact absurd h (by simp)
    rw [h46] at h
    try dsimp only at h
    rcases h47 : runFootgunPromptGenerationStage o false a1r smd with
      ⟨e47 | ⟨f1, f2⟩, l47⟩
    · rw [h47] at h
      try dsimp only at h
      exact absurd h (by simp)
    rw [h47] at h
    try dsimp only at h
    rcases h5 : runModesGenerationStage o false smd with ⟨e5 | mo, l5⟩
    · rw [h5] at h
      try dsimp only at h
      exact absurd h (by simp)
    rw [h5] at h
    try dsimp only at h
    rcases h6 : runPlanAssemblyStage o false cc smd mo.techSpecificSlugs with
      ⟨e6 | ⟨fp0, pv⟩, l6⟩
    · rw [h6] at h
      try dsimp only at h
      exact absurd h (by simp)
    rw [h6] at h
    try dsimp only at h
    have hfp0 : fp0 ≠ [] :=
      plan_assembly_ne o cc smd mo.techSpecificSlugs fp0 pv (by rw [h6])
    have hmo : mo.roomodesResult ≠ [] := modes_roomodes_ne o smd mo (by rw [h5])
    cases hc : pv && mo.parsedModesSuccessfully && !mo.roomodesResult.isEmpty with
    | false =>
      rw [hc] at h
      simp only [bool_if_false] at h
      try dsimp only at h
      injection h with h
      subst h
      exact c1_finish r4 r45 r46 f1 f2 mo fp0 _ hmo hfp0 rfl
    | true =>
      rw [hc] at h
      simp only [bool_if_true] at h
      try dsimp only at h
      rcases h7 : runPlanRefinementStage o false fp0 with ⟨e7 | fpl, l7⟩
      · rw [h7] at h
        try dsimp only at h
        exact absurd h (by simp)
      rw [h7] at h
      try dsimp only at h
      have hfpl : fpl ≠ [] := plan_refine_ne o hwf fp0 hfp0 fpl (by rw [h7])
      injection h with h
      subst h
      exact c1_finish r4 r45 r46 f1 f2 mo fpl _ hmo hfpl rfl

set_option maxRecDepth 1000000 in
/-- Claim C1, witness: a concrete completed run (every call answers with
fixed non-blank text) whose artifact map contains non-empty `.roomodes`
and `roo-plan.md` entries. -/
theorem c1_witness :
    ∃ res, (runAdvancedReasoningEngine c1WitOracle false (("a web app").data)).1 =
        Except.ok res ∧
      ∃ m p, List.lookup ((".roomodes").data) res.artifacts = some m ∧ m ≠ [] ∧
        List.lookup (("roo-plan.md").data) res.artifacts = some p ∧ p ≠ [] :=
  ⟨_, rfl, c1_required_artifacts c1WitOracle false (("a web app").data) _ c1WitWF rfl⟩

end RooPlan
